import Mathlib

/-!
Verification of the kb_tools knowledge-base merger (kb_compare.py).

The development shallowly embeds the data model and the algorithms of
kb_compare.py: field values are strings, field ordinals are naturals,
records ("entities") are lists of cells where each cell is a list of
values, and the mutable state of the deduplicator and of the matcher is
threaded explicitly.  Sets of Python objects are represented by lists of
entity indices; where Python iterates over a set in unspecified order the
embedding fixes ascending-index order, one admissible order.
-/

namespace KbCompare

/-- Cells of one record: one list of values per field ordinal. -/
abbrev Cells := List (List String)

/-- Embedding of uniqifyList with order_preserving=True: keeps the first
occurrence of each element. -/
def uniqifyList (l : List String) : List String :=
  l.foldl (fun acc x => if x ∈ acc then acc else acc ++ [x]) []

/-- Embedding of countNonEmptyFields: counts the non-empty cells of a record. -/
def countNonEmptyFields (ent : Cells) : Nat :=
  (ent.filter (fun c => !c.isEmpty)).length

/-! ### Freebase URL normalisation (Entity.fixFreebaseUrl) -/

/-- Leftmost position at which `needle` occurs as a contiguous substring of
the haystack, mirroring the Python str.index / `in` operator pair. -/
def findSub (needle : List Char) : List Char → Option Nat
  | [] => if needle.isEmpty then some 0 else none
  | c :: rest =>
    if needle.isPrefixOf (c :: rest) then some 0
    else (findSub needle rest).map (· + 1)

/-- Needle "freebase.com/" used by fixFreebaseUrl. -/
def fbNeedle : List Char := ("freebase.com/").toList

/-- Needle "http://www.freebase.com/" used by fixFreebaseUrl. -/
def fbFull : List Char := ("http://www.freebase.com/").toList

/-- Prefix "http://www." that fixFreebaseUrl prepends. -/
def fbWww : List Char := ("http://www.").toList

/-- Embedding of the per-value branch of Entity.fixFreebaseUrl: a value that
contains "freebase.com/" and does not contain "http://www.freebase.com/" is
rewritten to "http://www." plus the suffix starting at the first occurrence
of "freebase.com/"; every other value is returned unchanged. -/
def fixFreebaseValue (s : String) : String :=
  let cs := s.toList
  match findSub fbNeedle cs, findSub fbFull cs with
  | some i, none => (fbWww ++ cs.drop i).asString
  | _, _ => s

/-- Embedding of Entity.fixFreebaseUrl: rewrites every value of the
FREEBASE URL cell through fixFreebaseValue. -/
def fixFreebaseUrl (ent : Cells) (freebaseIdx : Nat) : Cells :=
  ent.set freebaseIdx ((ent.getD freebaseIdx []).map fixFreebaseValue)

/-- Semantic substring containment: the needle occurs contiguously at some
position of the haystack. -/
def hasSub (needle hay : List Char) : Prop :=
  ∃ i, needle <+: hay.drop i

/-- Rewrite rule as the specification sentence states it: the value is
rewritten when it contains "freebase.com/" but does not BEGIN WITH
"http://www.freebase.com/".  Modelled from the spec for comparison with the
source-derived fixFreebaseValue. -/
def specFixFreebaseValue (s : String) : String :=
  let cs := s.toList
  match findSub fbNeedle cs with
  | some i => if fbFull.isPrefixOf cs then s else (fbWww ++ cs.drop i).asString
  | none => s

/-! ### Relation-config parsing (parse_relations) -/

/-- Relation type markers UNIQUE / NAME / OTHER. -/
inductive RelType where
  | unique
  | nameRel
  | other
deriving DecidableEq, Repr

/-- Embedding of class Relation: a typed pairing of a KB1 field ordinal and
a KB2 field ordinal, with a per-relation value blacklist. -/
structure Rel where
  kb1f : Nat
  kb2f : Nat
  rty : RelType
  blacklist : List String := []
deriving DecidableEq, Repr

/-- Characters stripped by the Python str.strip() default. -/
def pyIsSpace (c : Char) : Bool :=
  c = ' ' ∨ c = '\t' ∨ c = '\n' ∨ c = '\r' ∨ c = '\x0b' ∨ c = '\x0c'

/-- Embedding of str.strip(): removes leading and trailing whitespace. -/
def pyStrip (l : List Char) : List Char :=
  ((l.dropWhile pyIsSpace).reverse.dropWhile pyIsSpace).reverse

/-- Per-line outcome of the parse_relations loop. -/
inductive LineOutcome where
  | skipped
  | header (t : RelType)
  | pair (kb1f kb2f : Nat)
  | configExit
  | valueError
  | keyError
deriving DecidableEq, Repr

/-- Embedding of one iteration of the parse_relations line loop.  A line that
is empty is skipped; a section header sets the relation type; a line starting
with a tab is stripped and split on the `=` sign into a qualified field pair
(sides swapped when the first side names KB2), then resolved against the two
field tables; any other line prints a config error and exits with status 1
(configExit).  A tab line whose split does not yield exactly two parts makes
the Python tuple unpacking raise ValueError; an unknown field name raises
KeyError from get_field_order_num. -/
def parseRelLine (kb2name : List Char)
    (kb1fields kb2fields : List (List Char × Nat)) (line : List Char) :
    LineOutcome :=
  if line = [] then .skipped
  else if ("UNIQUE:").toList.isPrefixOf line then .header .unique
  else if ("NAME:").toList.isPrefixOf line then .header .nameRel
  else if ("OTHER:").toList.isPrefixOf line then .header .other
  else if ['\t'].isPrefixOf line then
    match List.splitOn '=' (pyStrip line) with
    | [a, b] =>
      let p := if kb2name.isPrefixOf a then (b, a) else (a, b)
      match kb1fields.lookup p.1, kb2fields.lookup p.2 with
      | some n1, some n2 => .pair n1 n2
      | _, _ => .keyError
    | _ => .valueError
  else .configExit

/-- Blank line in the sense of the specification: non-empty and consisting
only of whitespace characters (a physical file line always carries at least
its newline). -/
def blankLine (line : List Char) : Prop :=
  line ≠ [] ∧ ∀ c ∈ line, pyIsSpace c

/-! ### Cross-KB matching (match, _checkUnique, match_by_unique, match_by_name) -/

/-- Embedding of class Entity as used by the matcher: parsed cells plus the
mutable per-record state (weight, used, matched).  A matched pointer is the
index of a record of the other KB. -/
structure MEnt where
  data : Cells
  weight : Int := 0
  used : Bool := false
  matched : Option Nat := none
deriving DecidableEq, Repr

/-- Placeholder entity returned by out-of-range list accesses. -/
def mdefault : MEnt := { data := [] }

/-- Embedding of Entity.get_field. -/
def getFieldE (e : MEnt) (f : Nat) : List String := e.data.getD f []

/-- Field ordinals indexed by _make_index: the chosen side of every
non-OTHER relation. -/
def fieldsToIndex (rels : List Rel) (sel : Rel → Nat) : List Nat :=
  (rels.filter (fun r => decide (r.rty ≠ .other))).map sel

/-- Per-ordinal blacklist accumulated by _make_index (blackdict). -/
def blackdictOf (rels : List Rel) (sel : Rel → Nat) (f : Nat) : List String :=
  ((rels.filter (fun r => decide (r.rty ≠ .other ∧ sel r = f)))).flatMap
    (fun r => r.blacklist)

/-- Embedding of _make_index, read as a lookup function: for an indexed
ordinal f, index f v is the set (as an ascending index list) of entities
whose cell f contains the non-blacklisted value v; lookups mirror
dict.get(value, tuple()). -/
def mkIndex (ents : List MEnt) (rels : List Rel) (sel : Rel → Nat)
    (f : Nat) (v : String) : List Nat :=
  if f ∈ fieldsToIndex rels sel ∧ v ∉ blackdictOf rels sel f then
    (List.range ents.length).filter
      (fun e => decide (v ∈ getFieldE (ents.getD e mdefault) f))
  else []

/-- Matcher state: both KBs, the mutable additions made to the KB1 index by
_updateUniqueInIndex (extra), and the emitted diagnostics. -/
structure MState where
  kb1 : List MEnt
  kb2 : List MEnt
  extra : List (Nat × String × Nat) := []
  diags : List (List String × List String) := []
deriving DecidableEq, Repr

/-- UNIQUE relations of a relation list, in order. -/
def uniqOf (rels : List Rel) : List Rel :=
  rels.filter (fun r => decide (r.rty = .unique))

/-- NAME relations of a relation list, in order. -/
def nameOf (rels : List Rel) : List Rel :=
  rels.filter (fun r => decide (r.rty = .nameRel))

/-- OTHER relations of a relation list, in order. -/
def otherOf (rels : List Rel) : List Rel :=
  rels.filter (fun r => decide (r.rty = .other))

/-- Lookup in the mutable KB1 index: the index built from KB1 by _make_index
plus the pairs added by _updateUniqueInIndex, with set semantics (dedup). -/
def idx1Lookup (st : MState) (rels : List Rel) (f : Nat) (v : String) :
    List Nat :=
  (mkIndex st.kb1 rels (fun r => r.kb1f) f v ++
    (st.extra.filter (fun t => decide (t.1 = f ∧ t.2.1 = v))).map
      (fun t => t.2.2)).dedup

/-- Embedding of _checkUnique: fusing KB1 entity e1 with KB2 entity e2 must
not create an identifier conflict, i.e. every non-empty KB2-side unique value
of e2 resolves in the KB1 index to the empty set or to the singleton e1. -/
def checkUnique (st : MState) (rels : List Rel) (e1 : Nat) (e2 : MEnt) :
    Bool :=
  (uniqOf rels).all (fun r =>
    (getFieldE e2 r.kb2f).all (fun v =>
      if v ≠ "" then
        let m := idx1Lookup st rels r.kb1f v
        decide (¬ (1 < m.length ∨ (m.length = 1 ∧ m ≠ [e1])))
      else true))

/-- Embedding of _getCheckUniqueErrorUriList: collects the KB1 and KB2
identifier value sets involved in a unique-conflict, or two empty sets when
no conflict is found. -/
def getErrUris (st : MState) (rels : List Rel) (e1 : Nat) (e2 : MEnt) :
    List String × List String :=
  let uniqRels := uniqOf rels
  let acc := uniqRels.foldl (fun (acc : List String × List String × Bool) r =>
    let k1 := acc.1 ++ getFieldE (st.kb1.getD e1 mdefault) r.kb1f
    let idl := getFieldE e2 r.kb2f
    let k2 := acc.2.1 ++ idl
    let inner := idl.foldl (fun (p : List String × Bool) v =>
      if v ≠ "" then
        let m := idx1Lookup st rels r.kb1f v
        if 1 < m.length ∨ (m.length = 1 ∧ m ≠ [e1]) then
          (p.1 ++ m.flatMap (fun e => uniqRels.flatMap (fun r2 =>
            getFieldE (st.kb1.getD e mdefault) r2.kb1f)), false)
        else p
      else p) (k1, acc.2.2)
    (inner.1, k2, inner.2)) ([], [], true)
  if acc.2.2 then ([], []) else ((acc.1).dedup, (acc.2.1).dedup)

/-- Embedding of _updateUniqueInIndex: when KB1 entity i is matched, every
non-empty, non-blacklisted KB2-side unique value of its match is added to
the KB1 index as pointing at entity i. -/
def updateUnique (st : MState) (rels : List Rel) (i : Nat) : MState :=
  match (st.kb1.getD i mdefault).matched with
  | none => st
  | some m =>
    { st with extra := st.extra ++ (uniqOf rels).flatMap (fun r =>
        ((getFieldE (st.kb2.getD m mdefault) r.kb2f).filter
          (fun v => decide (v ≠ "" ∧ v ∉ r.blacklist))).map
          (fun v => (r.kb1f, v, i))) }

/-- Embedding of match_by_unique: the first not-used KB2 entity found in the
KB2 index under a non-empty KB1-side unique value of the entity. -/
def matchByUnique (st : MState) (e : MEnt) (rels : List Rel) : Option Nat :=
  (uniqOf rels).findSome? (fun r =>
    (getFieldE e r.kb1f).findSome? (fun v =>
      if v ≠ "" then
        (mkIndex st.kb2 rels (fun r => r.kb2f) r.kb2f v).find?
          (fun j => !(st.kb2.getD j mdefault).used)
      else none))

/-- Increment of the transient weight of KB2 entity j. -/
def bumpWeight (l : List MEnt) (j : Nat) : List MEnt :=
  l.set j (let e := l.getD j mdefault; { e with weight := e.weight + 1 })

/-- Embedding of match_by_name: every not-used KB2 entity reachable from a
non-empty KB1-side NAME value gets its weight incremented once per hit and
joins the candidate set (first-hit order). -/
def matchByName (st : MState) (e : MEnt) (rels : List Rel) :
    List MEnt × List Nat :=
  (nameOf rels).foldl (fun acc r =>
    (getFieldE e r.kb1f).foldl (fun acc v =>
      if v ≠ "" then
        (mkIndex st.kb2 rels (fun r => r.kb2f) r.kb2f v).foldl
          (fun (acc : List MEnt × List Nat) j =>
            if !(acc.1.getD j mdefault).used then
              (bumpWeight acc.1 j, if j ∈ acc.2 then acc.2 else acc.2 ++ [j])
            else acc) acc
      else acc) acc) (st.kb2, [])

/-- Embedding of the UNIQUE-disagreement veto of the scoring loop: the first
UNIQUE relation on which both sides are non-empty with differing first
values sets the weight to -1000. -/
def applyVeto (e c : MEnt) (rels : List Rel) : MEnt :=
  if (uniqOf rels).any (fun r =>
      decide (getFieldE e r.kb1f ≠ [] ∧ getFieldE c r.kb2f ≠ [] ∧
        (getFieldE e r.kb1f).headD "" ≠ (getFieldE c r.kb2f).headD "")) then
    { c with weight := -1000 }
  else c

/-- Embedding of OTHER-relation scoring: one point per value pair that the
comparison function accepts.  The Python float-parse-and-round comparison is
abstracted as the parameter cmp. -/
def otherScore (cmp : String → String → Bool) (e c : MEnt)
    (rels : List Rel) : Nat :=
  (otherOf rels).foldl (fun n r =>
    (getFieldE e r.kb1f).foldl (fun n i =>
      (getFieldE c r.kb2f).foldl (fun n j => if cmp i j then n + 1 else n) n)
      n) 0

/-- Scoring of one Phase B candidate: veto, then the _checkUnique demotion
to -999, then OTHER scoring unless the weight is already below treshold. -/
def scoreCandidate (cmp : String → String → Bool) (st : MState)
    (rels : List Rel) (treshold : Int) (e1 : Nat) (c : MEnt) : MEnt :=
  let c := applyVeto (st.kb1.getD e1 mdefault) c rels
  let c := if checkUnique st rels e1 c then c else { c with weight := -999 }
  if c.weight < treshold then c
  else { c with weight := c.weight +
    (otherScore cmp (st.kb1.getD e1 mdefault) c rels : Int) }

/-- Application of scoreCandidate to every candidate in order. -/
def scoreAll (cmp : String → String → Bool) (st : MState) (rels : List Rel)
    (treshold : Int) (e1 : Nat) (kb2 : List MEnt) (cands : List Nat) :
    List MEnt :=
  cands.foldl (fun kb2 j =>
    kb2.set j (scoreCandidate cmp st rels treshold e1 (kb2.getD j mdefault)))
    kb2

/-- Candidate list produced for KB1 entity i in Phase B. -/
def phaseBCands (st : MState) (rels : List Rel) (i : Nat) : List Nat :=
  (matchByName st (st.kb1.getD i mdefault) rels).2

/-- KB2 entities after name bumping and scoring for KB1 entity i: the
weights these entities carry at selection time. -/
def phaseBScored (cmp : String → String → Bool) (st : MState)
    (rels : List Rel) (treshold : Int) (i : Nat) : List MEnt :=
  scoreAll cmp st rels treshold i
    (matchByName st (st.kb1.getD i mdefault) rels).1
    (phaseBCands st rels i)

/-- Choice of the best candidate: the first candidate wins ties, a later one
replaces it only with a strictly greater weight. -/
def pickBest (kb2 : List MEnt) (cands : List Nat) : Nat :=
  cands.foldl (fun b j =>
    if (kb2.getD b mdefault).weight < (kb2.getD j mdefault).weight then j
    else b) (cands.headD 0)

/-- Reset of the transient candidate weights after one KB1 entity. -/
def resetWeights (kb2 : List MEnt) (cands : List Nat) : List MEnt :=
  cands.foldl (fun kb2 j =>
    kb2.set j { kb2.getD j mdefault with weight := 0 }) kb2

/-- Embedding of Phase B of the match loop for one KB1 entity: name-based
candidate collection, per-candidate scoring, best-candidate selection
against treshold, weight reset, and the KB1 index update. -/
def phaseB (cmp : String → String → Bool) (rels : List Rel) (treshold : Int)
    (st : MState) (i : Nat) : MState :=
  let e := st.kb1.getD i mdefault
  let pr := matchByName st e rels
  if pr.2 = [] then { st with kb2 := pr.1 }
  else
    let kb2s := phaseBScored cmp st rels treshold i
    let best := pickBest kb2s pr.2
    let st1 : MState := { st with kb2 := kb2s }
    let st2 : MState :=
      if treshold ≤ (kb2s.getD best mdefault).weight then
        { st1 with
          kb1 := st1.kb1.set i { e with matched := some best, used := true },
          kb2 := st1.kb2.set best
            { st1.kb2.getD best mdefault with used := true } }
      else st1
    let st3 : MState := { st2 with kb2 := resetWeights st2.kb2 pr.2 }
    updateUnique st3 rels i

/-- Embedding of one iteration of the match loop for KB1 entity i: Phase A
(unique-id lookup guarded by _checkUnique) and, when no tentative unique
match exists, Phase B. -/
def matchStep (cmp : String → String → Bool) (rels : List Rel)
    (treshold : Int) (st : MState) (i : Nat) : MState :=
  let e := st.kb1.getD i mdefault
  match matchByUnique st e rels with
  | some m =>
    if checkUnique st rels i (st.kb2.getD m mdefault) then
      let st1 : MState :=
        { st with
          kb1 := st.kb1.set i { e with matched := some m, used := true },
          kb2 := st.kb2.set m { st.kb2.getD m mdefault with used := true } }
      updateUnique st1 rels i
    else
      { st with diags :=
          st.diags ++ [getErrUris st rels i (st.kb2.getD m mdefault)] }
  | none => phaseB cmp rels treshold st i

/-- Match loop over a list of KB1 entity indices. -/
def runMatchFrom (cmp : String → String → Bool) (rels : List Rel)
    (treshold : Int) (st : MState) (is : List Nat) : MState :=
  is.foldl (matchStep cmp rels treshold) st

/-- Embedding of match: the loop over all KB1 entities in file order. -/
def runMatch (cmp : String → String → Bool) (rels : List Rel)
    (treshold : Int) (st : MState) : MState :=
  runMatchFrom cmp rels treshold st (List.range st.kb1.length)

/-- Matched pairs visible after a match run: KB1 index paired with the KB2
index its matched pointer holds. -/
def matchedPairs (st : MState) : List (Nat × Nat) :=
  (List.range st.kb1.length).filterMap
    (fun i => ((st.kb1.getD i mdefault).matched).map (fun j => (i, j)))

/-! ### Deduplication (_getIds, _collectUniqueIds, _deduplicate)

The dedup pass works inside one KB.  Entities are referenced by their index
in the KB's entity list; the index built by make_index_for_kb1 for the
synthetic UNIQUE relations of _getIdRelations carries no blacklist, so its
content is exactly: entity e is listed under (f, v) iff cell f of e
contains v.  Conflict bookkeeping uses (field, value) pairs. -/

/-- Identifier pair: field ordinal and value. -/
abbrev IdPair := Nat × String

/-- Content of the intra-KB index built for deduplication, as a lookup
function over the entity data present when the index is built. -/
def dIndex (ents : List Cells) (f : Nat) (v : String) : List Nat :=
  (List.range ents.length).filter
    (fun e => decide (v ∈ (ents.getD e []).getD f []))

/-- All identifier pairs of a record over the identifier fields. -/
def entPairs (idFields : List Nat) (ent : Cells) : List IdPair :=
  idFields.flatMap (fun f => (ent.getD f []).map (fun v => (f, v)))

/-- Embedding of _getIds: the identifier pairs of a record, omitting
blacklisted pairs, in field-list order. -/
def getIds (idFields : List Nat) (ent : Cells) (black : List IdPair) :
    List IdPair :=
  idFields.flatMap (fun f =>
    ((ent.getD f []).filter (fun v => decide ((f, v) ∉ black))).map
      (fun v => (f, v)))

/-- Values collected so far for one field. -/
def collectedVals (col : List IdPair) (f : Nat) : List String :=
  (col.filter (fun p => decide (p.1 = f))).map (fun p => p.2)

/-- State of the processing of one popped queue element: the committed
collected pairs, the blacklist, and the candidates staged during this pop
(pairs and the queue entries they will enqueue). -/
structure PopState where
  collected : List IdPair
  black : List IdPair
  candIds : List IdPair
  candEnts : List (Nat × Option IdPair)
deriving DecidableEq, Repr

/-- Embedding of the cur_ids loop body of _collectUniqueIds.  curAll is the
full cur_ids list (the conflict comprehension ranges over all of it), lst
the still unprocessed suffix.  A pair already blacklisted is skipped; a pair
whose value is already collected for its field contributes nothing; a fresh
value for a field with a non-empty collected set triggers the conflict
branch (all cur_ids pairs whose value is currently collected are removed
from collected and added to the blacklist, and the staged candidates are
discarded); otherwise the pair is staged and the index entries under it are
staged for enqueueing. -/
def procPairs (index : Nat → String → List Nat) (curAll : List IdPair) :
    List IdPair → PopState → PopState
  | [], ps => ps
  | (f, v) :: rest, ps =>
    if (f, v) ∈ ps.black then procPairs index curAll rest ps
    else if v ∈ collectedVals ps.collected f then procPairs index curAll rest ps
    else if collectedVals ps.collected f ≠ [] then
      let newBlack := curAll.filter
        (fun q => decide (q.2 ∈ collectedVals ps.collected q.1))
      procPairs index curAll rest
        { collected := ps.collected.filter (fun q => decide (q ∉ newBlack))
          black := ps.black ++ newBlack
          candIds := []
          candEnts := [] }
    else
      procPairs index curAll rest
        { ps with
          candIds := ps.candIds ++ [(f, v)]
          candEnts := ps.candEnts ++ (index f v).map (fun e => (e, some (f, v))) }

/-- Collection state: committed pairs, blacklist and the FIFO of
(entity, arriving pair) queue entries; the root is tagged none, mirroring
the empty-string tag of the Python code. -/
structure CState where
  collected : List IdPair
  black : List IdPair
  queue : List (Nat × Option IdPair)
deriving DecidableEq, Repr

/-- Test of the skip guard: the arriving tag is in the blacklist.  The root
tag (the Python empty string) is never blacklisted. -/
def tagBlack (t : Option IdPair) (black : List IdPair) : Bool :=
  match t with
  | none => false
  | some p => decide (p ∈ black)

/-- Embedding of the while loop of _collectUniqueIds, with explicit fuel;
returns the final collected set and blacklist once the queue empties, or
none if the fuel runs out first. -/
def collectLoop (index : Nat → String → List Nat) (idFields : List Nat)
    (ents : List Cells) : Nat → CState → Option (List IdPair × List IdPair)
  | 0, st => if st.queue = [] then some (st.collected, st.black) else none
  | fuel + 1, st =>
    match st.queue with
    | [] => some (st.collected, st.black)
    | (e, tag) :: rest =>
      if tagBlack tag st.black then
        collectLoop index idFields ents fuel { st with queue := rest }
      else
        let cur := getIds idFields (ents.getD e []) st.black
        let ps := procPairs index cur cur
          { collected := st.collected, black := st.black,
            candIds := [], candEnts := [] }
        collectLoop index idFields ents fuel
          { collected := ps.collected ++ ps.candIds
            black := ps.black
            queue := rest ++ ps.candEnts }

/-- Embedding of _collectUniqueIds: breadth-first collection from a root
entity, starting from empty collected sets and the current blacklist. -/
def collectUniqueIds (index : Nat → String → List Nat) (idFields : List Nat)
    (ents : List Cells) (root : Nat) (black0 : List IdPair) (fuel : Nat) :
    Option (List IdPair × List IdPair) :=
  collectLoop index idFields ents fuel
    { collected := [], black := black0, queue := [(root, none)] }

/-- Cluster members of a seed: the union of the index entries under every
collected pair (matches in _deduplicate), with set semantics. -/
def dedupMatches (index : Nat → String → List Nat)
    (collected : List IdPair) : List Nat :=
  (collected.flatMap (fun p => index p.1 p.2)).dedup

/-- Stable descending insertion of a member: the element is placed before
the first element with a strictly smaller key, hence after every earlier
element with a greater or equal key. -/
def insertByCount (key : Nat → Nat) (x : Nat) : List Nat → List Nat
  | [] => [x]
  | y :: ys => if key y < key x then x :: y :: ys else y :: insertByCount key x ys

/-- Stable sort of the cluster members by descending count of non-empty
cells, as matches.sort(key=countNonEmptyFields, reverse=True): a stable
sort on the same key and order produces exactly this list. -/
def sortByCount (ents : List Cells) (ms : List Nat) : List Nat :=
  ms.foldl (fun acc m =>
    insertByCount (fun e => countNonEmptyFields (ents.getD e [])) m acc) []

/-- Raw fused cells before deduplication and truncation.  new_entity is a
shallow copy of the base (the first sorted member), so extending its cells
extends the base's cells: when the loop reaches the base itself the cell is
extended with its own current content, doubling it; every other member
appends its cells. -/
def fuseRaw (ents : List Cells) (fieldCount : Nat) (sorted : List Nat) :
    Cells :=
  let base := sorted.headD 0
  (List.range fieldCount).map (fun f =>
    let c := (ents.getD base []).getD f []
    c ++ sorted.flatMap (fun m =>
      if m = base then c else (ents.getD m []).getD f []))

/-- Final fused record: each raw cell is uniqified preserving order, then
truncated to its first value when the field is not multi-valued. -/
def fuseOut (multiFlags : List Bool) (raw : Cells) : Cells :=
  (List.range raw.length).map (fun f =>
    let cell := uniqifyList (raw.getD f [])
    if multiFlags.getD f true then cell else cell.take 1)

/-- State of the outer _deduplicate loop: the (mutated) entity data, the
used flags, the shared blacklist, and the replacement record list.  An
output entry Sum.inl s is the seed entity s emitted unchanged (Python
appends the object itself, so its cells are those the entity holds at the
end of the pass); Sum.inr (c, u) is a freshly fused record with cells c
whose used flag u was copied from the base by copy.copy before the members
were marked used. -/
structure DState where
  ents : List Cells
  used : List Bool
  black : List IdPair
  out : List (Sum Nat (Cells × Bool))
deriving DecidableEq, Repr

/-- Resolution of an output entry to its cells in a given state. -/
def outCells (st : DState) : Sum Nat (Cells × Bool) → Cells
  | Sum.inl s => st.ents.getD s []
  | Sum.inr c => c.1

/-- Embedding of one iteration of the _deduplicate entity loop for seed s:
skip a used seed; otherwise collect the cluster ids, compute the member
set, and either fuse (marking every member used, mutating the base's cells
through the shallow copy, and emitting the fused record) or emit the seed
unchanged. -/
def dedupStep (index : Nat → String → List Nat) (idFields : List Nat)
    (fieldCount : Nat) (multiFlags : List Bool) (fuel : Nat)
    (st : DState) (s : Nat) : Option DState :=
  if st.used.getD s false then some st
  else
    match collectUniqueIds index idFields st.ents s st.black fuel with
    | none => none
    | some (collected, black1) =>
      let ms := dedupMatches index collected
      if 1 < ms.length then
        let sorted := sortByCount st.ents ms
        let raw := fuseRaw st.ents fieldCount sorted
        some { ents := st.ents.set (sorted.headD 0) raw
               used := ms.foldl (fun u m => u.set m true) st.used
               black := black1
               out := st.out ++ [Sum.inr (fuseOut multiFlags raw,
                 st.used.getD (sorted.headD 0) false)] }
      else
        some { st with black := black1, out := st.out ++ [Sum.inl s] }

/-- Embedding of _deduplicate (with the index of the deduplicate wrapper):
the index is built once from the entity data at entry, every entity is
visited in file order as a seed, and the final state carries the
replacement record list and the accumulated blacklist. -/
def deduplicate (idFields : List Nat) (fieldCount : Nat)
    (multiFlags : List Bool) (ents0 : List Cells) (black0 : List IdPair)
    (fuel : Nat) : Option DState :=
  (List.range ents0.length).foldlM
    (dedupStep (dIndex ents0) idFields fieldCount multiFlags fuel)
    { ents := ents0
      used := List.replicate ents0.length false
      black := black0
      out := [] }

/-- Conversion of the replacement record list produced by a dedup pass into
matcher entities: a seed emitted unchanged keeps its (final) cells, used
flag and load-time matched pointer; a fused record carries the used flag
copied by copy.copy and the load-time matched pointer and weight. -/
def dedupToMEnts (st : DState) : List MEnt :=
  st.out.map (fun o =>
    match o with
    | Sum.inl s => { data := st.ents.getD s [], used := st.used.getD s false }
    | Sum.inr c => { data := c.1, used := c.2 })

/-- Wellformedness of a PopState during the processing of one popped queue
element: committed pairs and blacklist are disjoint, staged candidates are
neither blacklisted nor committed, staged queue entries are exactly the
index entries of the staged candidates, and staged candidates come from the
current identifier list. -/
def popInv (index : Nat → String → List Nat) (curAll : List IdPair)
    (ps : PopState) : Prop :=
  (∀ q ∈ ps.collected, q ∉ ps.black) ∧
  (∀ q ∈ ps.candIds, q ∉ ps.black ∧ q ∉ ps.collected) ∧
  (∀ et ∈ ps.candEnts, ∃ p ∈ ps.candIds, et.2 = some p ∧
    et.1 ∈ index p.1 p.2) ∧
  (∀ p ∈ ps.candIds, ∀ e ∈ index p.1 p.2, (e, some p) ∈ ps.candEnts) ∧
  (∀ p ∈ ps.candIds, p ∈ curAll)

/-- Invariant of the collection loop of _collectUniqueIds, relative to the
entity data ents0 the index was built from, the blacklist black0 at entry,
a predicate good on entities (those that may safely join a new cluster and
whose data is still the index-time data) and the root seed.  Collected
pairs avoid the blacklist, the blacklist only grows, arriving tags are
settled, queued entities are good, every entity listed under a collected
pair is good, and for each such entity either its visit is still queued or
its identifier pairs are all settled; the root is either still untouched in
the initial queue or its identifier pairs are all settled. -/
def collectInv (idFields : List Nat) (ents0 : List Cells)
    (black0 : List IdPair) (good : Nat → Prop) (root : Nat)
    (st : CState) : Prop :=
  (∀ p ∈ st.collected, p ∉ st.black) ∧
  (∀ p ∈ black0, p ∈ st.black) ∧
  (∀ et ∈ st.queue, ∀ q : IdPair, et.2 = some q →
    q ∈ st.collected ∨ q ∈ st.black) ∧
  (∀ et ∈ st.queue, good et.1) ∧
  (∀ p ∈ st.collected, ∀ e ∈ dIndex ents0 p.1 p.2, good e) ∧
  (∀ p ∈ st.collected, ∀ e ∈ dIndex ents0 p.1 p.2,
    (e, some p) ∈ st.queue ∨
    ∀ q ∈ entPairs idFields (ents0.getD e []),
      q ∈ st.collected ∨ q ∈ st.black) ∧
  (∀ p ∈ st.collected, p.1 ∈ idFields) ∧
  ((st.queue = [(root, none)] ∧ st.collected = []) ∨
    ∀ q ∈ entPairs idFields (ents0.getD root []),
      q ∈ st.collected ∨ q ∈ st.black)

/-- Invariant of the outer _deduplicate loop over the seed list todo, with
ents0 the entity data the index was built from.  Unused entities still hold
their index-time data; the identifier pairs of a used entity are
blacklisted or lead only to used entities; a seed emitted unchanged is no
longer pending, stays unused, and its identifier pairs are blacklisted or
isolated to itself; every identifier value of an output record is
blacklisted, sealed among used entities, or isolated to the emitting seed;
and no two output records share a non-blacklisted identifier value. -/
def dedupInv (idFields : List Nat) (ents0 : List Cells) (todo : List Nat)
    (st : DState) : Prop :=
  st.ents.length = ents0.length ∧
  st.used.length = ents0.length ∧
  (∀ e, st.used.getD e false = false → st.ents.getD e [] = ents0.getD e []) ∧
  (∀ e, st.used.getD e false = true →
    ∀ p ∈ entPairs idFields (ents0.getD e []),
      p ∈ st.black ∨
      ∀ e2 ∈ dIndex ents0 p.1 p.2, st.used.getD e2 false = true) ∧
  (∀ s : Nat, Sum.inl s ∈ st.out → s ∉ todo ∧ st.used.getD s false = false ∧
    ∀ p ∈ entPairs idFields (ents0.getD s []),
      p ∈ st.black ∨ ∀ e2 ∈ dIndex ents0 p.1 p.2, e2 = s) ∧
  (∀ o ∈ st.out, ∀ f ∈ idFields, ∀ v, v ∈ (outCells st o).getD f [] →
    (f, v) ∈ st.black ∨
    (∀ e2 ∈ dIndex ents0 f v, st.used.getD e2 false = true) ∨
    (∃ s : Nat, o = Sum.inl s ∧ ∀ e2 ∈ dIndex ents0 f v, e2 = s)) ∧
  (∀ i j : Nat, i < j → j < st.out.length → ∀ f ∈ idFields, ∀ v : String,
    (f, v) ∉ st.black →
    ¬(v ∈ (outCells st (st.out.getD i (Sum.inl 0))).getD f [] ∧
      v ∈ (outCells st (st.out.getD j (Sum.inl 0))).getD f []))

/-! ### Output rendering (Output.make_output) -/

/-- Runtime errors the rendering loop can raise: the AttributeError from
dereferencing a missing matched pointer, and the KeyError from an unknown
field name. -/
inductive PyErr where
  | attrError
  | keyError
deriving DecidableEq, Repr

/-- Quote-stripping of fieldname.strip() with the quote character, as used
for literal output tokens. -/
def stripQuotes (s : String) : String :=
  (((s.toList.dropWhile (fun c => c = '"')).reverse.dropWhile
    (fun c => c = '"')).reverse).asString

/-- Rendering of one output token for a used (matched) KB1 record, per the
make_output loop: ID generates a fresh identifier from the bumped counter,
None yields an empty cell, a quoted token yields the literal, a KB1 field
token takes KB1 values refilled from the matched KB2 record when the field
is multi-valued or empty, and a KB2 field token logs the record when its
matched pointer is missing and then dereferences that pointer (raising
AttributeError when it is none).  Both field branches deduplicate without
order preservation and truncate single-valued cells. -/
def renderTokMatched (kb1name : String)
    (fields1 fields2 : List (String × Nat × Bool)) (rels : List Rel)
    (kb2 : List MEnt) (genId : Nat → String) (line : MEnt)
    (tok : Option String) (counter : Nat) (printed : List MEnt) :
    Except PyErr (List String) × Nat × List MEnt :=
  match tok with
  | none => (Except.ok [""], counter, printed)
  | some s =>
    if s = "ID" then (Except.ok [genId (counter + 1)], counter + 1, printed)
    else if ("\"").toList.isPrefixOf s.toList then
      (Except.ok [stripQuotes s], counter, printed)
    else if kb1name.toList.isPrefixOf s.toList then
      match fields1.lookup s with
      | none => (Except.error .keyError, counter, printed)
      | some (ord, multi) =>
        let possible := getFieldE line ord
        if multi ∨ possible = [] then
          let mrels := rels.filter (fun r => decide (r.kb1f = ord))
          match line.matched with
          | none =>
            if mrels = [] then
              (Except.ok (if ¬ multi ∧ 1 < possible.dedup.length then
                possible.dedup.take 1 else possible.dedup), counter, printed)
            else (Except.error .attrError, counter, printed)
          | some mj =>
            let possible := possible ++ mrels.flatMap
              (fun r => getFieldE (kb2.getD mj mdefault) r.kb2f)
            (Except.ok (if ¬ multi ∧ 1 < possible.dedup.length then
              possible.dedup.take 1 else possible.dedup), counter, printed)
        else
          (Except.ok (if ¬ multi ∧ 1 < possible.dedup.length then
            possible.dedup.take 1 else possible.dedup), counter, printed)
    else
      match fields2.lookup s with
      | none => (Except.error .keyError, counter, printed)
      | some (ord, multi) =>
        let printed := if line.matched = none then printed ++ [line]
          else printed
        match line.matched with
        | none => (Except.error .attrError, counter, printed)
        | some mj =>
          let possible := getFieldE (kb2.getD mj mdefault) ord
          let possible := if multi ∨ possible = [] then
              possible ++ (rels.filter (fun r => decide (r.kb2f = ord))).flatMap
                (fun r => getFieldE line r.kb1f)
            else possible
          (Except.ok (if ¬ multi ∧ 1 < possible.dedup.length then
            possible.dedup.take 1 else possible.dedup), counter, printed)

/-- Rendering of one output token for an unmatched KB1 record per the
other_output branch: ID, None and literals as above, any other token a
pipe-separated union of KB1 fields, deduplicated without truncation. -/
def renderTokOther (fields1 : List (String × Nat × Bool))
    (genId : Nat → String) (line : MEnt) (tok : Option String)
    (counter : Nat) : Except PyErr (List String) × Nat :=
  match tok with
  | none => (Except.ok [""], counter)
  | some s =>
    if s = "ID" then (Except.ok [genId (counter + 1)], counter + 1)
    else if ("\"").toList.isPrefixOf s.toList then
      (Except.ok [stripQuotes s], counter)
    else
      let names := (List.splitOn '|' s.toList).map List.asString
      let step := names.foldl
        (fun (acc : Except PyErr (List String)) fn =>
          match acc with
          | Except.error e => Except.error e
          | Except.ok possible =>
            match fields1.lookup fn with
            | none => Except.error .keyError
            | some (ord, _) => Except.ok (possible ++ getFieldE line ord))
        (Except.ok [])
      match step with
      | Except.error e => (Except.error e, counter)
      | Except.ok possible => (Except.ok possible.dedup, counter)

/-- One step of the matched-template token fold of make_output. -/
def renderStepMatched (kb1name : String)
    (fields1 fields2 : List (String × Nat × Bool)) (rels : List Rel)
    (kb2 : List MEnt) (genId : Nat → String) (line : MEnt)
    (acc : Except PyErr (List (List String)) × Nat × List MEnt)
    (tok : Option String) :
    Except PyErr (List (List String)) × Nat × List MEnt :=
  match acc with
  | (Except.error e, c, pr) => (Except.error e, c, pr)
  | (Except.ok cellsAcc, c, pr) =>
    match renderTokMatched kb1name fields1 fields2 rels kb2 genId line
      tok c pr with
    | (Except.error e, c2, pr2) => (Except.error e, c2, pr2)
    | (Except.ok cell, c2, pr2) => (Except.ok (cellsAcc ++ [cell]), c2, pr2)

/-- One step of the other-template token fold of make_output. -/
def renderStepOther (fields1 : List (String × Nat × Bool))
    (genId : Nat → String) (line : MEnt)
    (acc : Except PyErr (List (List String)) × Nat × List MEnt)
    (tok : Option String) :
    Except PyErr (List (List String)) × Nat × List MEnt :=
  match acc with
  | (Except.error e, c, pr) => (Except.error e, c, pr)
  | (Except.ok cellsAcc, c, pr) =>
    match renderTokOther fields1 genId line tok c with
    | (Except.error e, c2) => (Except.error e, c2, pr)
    | (Except.ok cell, c2) => (Except.ok (cellsAcc ++ [cell]), c2, pr)

/-- Rendering of one KB1 record: the matched template for a used record,
the other template otherwise, folding the counter and the printed log and
aborting at the first raised error. -/
def renderLine (kb1name : String)
    (fields1 fields2 : List (String × Nat × Bool)) (rels : List Rel)
    (kb2 : List MEnt) (genId : Nat → String)
    (outToks otherToks : List (Option String)) (line : MEnt)
    (counter : Nat) (printed : List MEnt) :
    Except PyErr (List (List String)) × Nat × List MEnt :=
  if line.used then
    outToks.foldl (renderStepMatched kb1name fields1 fields2 rels kb2 genId
      line) (Except.ok [], counter, printed)
  else
    otherToks.foldl (renderStepOther fields1 genId line)
      (Except.ok [], counter, printed)

/-- Accumulated result of the make_output KB1 loop: the rendered lines, the
records printed by the missing-matched log, the ID counter, and the first
error raised, if any (rendering stops there, as an uncaught Python
exception aborts the loop). -/
structure ROut where
  lines : List (List (List String))
  printed : List MEnt
  counter : Nat
  err : Option PyErr
deriving DecidableEq, Repr

/-- One step of the entity loop of make_output: once an error was raised
nothing more happens. -/
def makeOutStep (kb1name : String)
    (fields1 fields2 : List (String × Nat × Bool)) (rels : List Rel)
    (kb2 : List MEnt) (genId : Nat → String)
    (outToks otherToks : List (Option String)) (acc : ROut)
    (line : MEnt) : ROut :=
  match acc.err with
  | some _ => acc
  | none =>
    match renderLine kb1name fields1 fields2 rels kb2 genId outToks
      otherToks line acc.counter acc.printed with
    | (Except.error e, c, pr) =>
      { acc with printed := pr, counter := c, err := some e }
    | (Except.ok cells, c, pr) =>
      { acc with lines := acc.lines ++ [cells], printed := pr, counter := c }

/-- Embedding of the KB1 loop of Output.make_output. -/
def makeOutput (kb1name : String)
    (fields1 fields2 : List (String × Nat × Bool)) (rels : List Rel)
    (kb2 : List MEnt) (genId : Nat → String)
    (outToks otherToks : List (Option String)) (kb1 : List MEnt) : ROut :=
  kb1.foldl (makeOutStep kb1name fields1 fields2 rels kb2 genId outToks
    otherToks) { lines := [], printed := [], counter := 0, err := none }


/-- Invariant of the match_by_name accumulator used in proofs: the KB2 copy
differs from the original only in weights, and the candidate list is
duplicate-free and in range. -/
def nameAccInv (st : MState) (acc : List MEnt × List Nat) : Prop :=
  acc.1.length = st.kb2.length ∧
  (∀ j, (acc.1.getD j mdefault).data = (st.kb2.getD j mdefault).data ∧
    (acc.1.getD j mdefault).used = (st.kb2.getD j mdefault).used ∧
    (acc.1.getD j mdefault).matched = (st.kb2.getD j mdefault).matched) ∧
  acc.2.Nodup ∧
  (∀ j ∈ acc.2, j < st.kb2.length ∧ (st.kb2.getD j mdefault).used = false)

/-- Invariant of the match loop used in proofs, after the records before
index done have been processed: records from done on are untouched, a KB1
record is used iff it holds a matched pointer, a KB2 record is used iff
exactly one processed KB1 record points at it, and pointers are injective
and in range. -/
def matchInv (n1 n2 done : Nat) (st : MState) : Prop :=
  st.kb1.length = n1 ∧ st.kb2.length = n2 ∧
  (∀ k, done ≤ k → (st.kb1.getD k mdefault).used = false ∧
    (st.kb1.getD k mdefault).matched = none) ∧
  (∀ i, (st.kb1.getD i mdefault).used = true ↔
    ((st.kb1.getD i mdefault).matched).isSome = true) ∧
  (∀ j, (st.kb2.getD j mdefault).used = true ↔
    ∃ i, i < done ∧ (st.kb1.getD i mdefault).matched = some j) ∧
  (∀ i1 i2 j, (st.kb1.getD i1 mdefault).matched = some j →
    (st.kb1.getD i2 mdefault).matched = some j → i1 = i2) ∧
  (∀ i j, (st.kb1.getD i mdefault).matched = some j → j < n2)

/-! ### Concrete instances used by witnesses and counterexamples -/

/-- String equality as a concrete OTHER comparison function. -/
def eqCmp : String → String → Bool := fun a b => a == b

/-- Matcher state with two KB1 records sharing identifier u and one KB2
record with the same identifier; the unique-conflict guard fails there. -/
def exConflictSt : MState :=
  { kb1 := [{ data := [["u"], ["nm"]] }, { data := [["u"], []] }]
    kb2 := [{ data := [["u"], []] }, { data := [[], ["nm"]] }] }

/-- Relations for exConflictSt: one UNIQUE pairing of field 0 and one NAME
pairing of field 1. -/
def exConflictRels : List Rel :=
  [{ kb1f := 0, kb2f := 0, rty := .unique },
   { kb1f := 1, kb2f := 1, rty := .nameRel }]

/-- Matcher state for the weight-veto scenario: the KB1 record and the only
KB2 record share a name but carry different unique identifiers, and a
second KB1 record holds the candidate's identifier, so the conflict guard
fails as well. -/
def exVetoSt : MState :=
  { kb1 := [{ data := [["id1"], ["nm"]] }, { data := [["id2"], []] }]
    kb2 := [{ data := [["id2"], ["nm"]] }] }

/-- Relations for exVetoSt: UNIQUE on field 0, NAME on field 1. -/
def exVetoRels : List Rel :=
  [{ kb1f := 0, kb2f := 0, rty := .unique },
   { kb1f := 1, kb2f := 1, rty := .nameRel }]

/-- Matcher state for the threshold counterexample: one KB1 record, two KB2
candidates; candidate 0 scores two name hits and no OTHER points while
candidate 1 scores one name hit and three OTHER points. -/
def exThreshSt : MState :=
  { kb1 := [{ data := [["n1", "n2"], ["x", "y", "z"]] }]
    kb2 := [{ data := [["n1", "n2"], []] }, { data := [["n1"], ["x", "y", "z"]] }] }

/-- Relations for exThreshSt: NAME on field 0, OTHER on field 1. -/
def exThreshRels : List Rel :=
  [{ kb1f := 0, kb2f := 0, rty := .nameRel },
   { kb1f := 1, kb2f := 1, rty := .other }]

/-- Entities for the dedup examples: records 0 and 1 share value a in field
0, records 1 and 2 share value x in field 1, and record 2 carries the
conflicting value b in field 0. -/
def exDedupEnts : List Cells :=
  [[["a"], []], [["a"], ["x"]], [["b"], ["x"]]]

/-- Two single-field records with distinct identifier values: a dedup pass
emits both unchanged. -/
def exDedup2Ents : List Cells := [[["a"]], [["b"]]]

/-- The final state of a dedup pass over exDedup2Ents. -/
def exDedup2St : DState :=
  { ents := exDedup2Ents
    used := [false, false]
    black := []
    out := [Sum.inl 0, Sum.inl 1] }

/-! ### Helper lemmas -/

theorem mem_uniqifyList_aux (l acc : List String) (v : String) :
    v ∈ l.foldl (fun acc x => if x ∈ acc then acc else acc ++ [x]) acc ↔
      v ∈ l ∨ v ∈ acc := by
  induction l generalizing acc with
  | nil => simp
  | cons x xs ih =>
    by_cases hx : x ∈ acc
    · simp only [List.foldl_cons, if_pos hx, ih, List.mem_cons]
      constructor
      · rintro (h | h)
        · exact Or.inl (Or.inr h)
        · exact Or.inr h
      · rintro ((rfl | h) | h)
        · exact Or.inr hx
        · exact Or.inl h
        · exact Or.inr h
    · simp only [List.foldl_cons, if_neg hx, ih, List.mem_cons, List.mem_append,
        List.mem_singleton]
      tauto

theorem mem_uniqifyList (l : List String) (v : String) :
    v ∈ uniqifyList l ↔ v ∈ l := by
  simpa using mem_uniqifyList_aux l [] v

theorem findSub_eq_some (needle : List Char) (hne : needle ≠ []) :
    ∀ (hay : List Char) (i : Nat), findSub needle hay = some i ↔
      (needle <+: hay.drop i ∧ ∀ j < i, ¬ needle <+: hay.drop j) := by
  intro hay
  induction hay with
  | nil =>
    intro i
    simp only [findSub, List.isEmpty_iff, if_neg hne, List.drop_nil]
    constructor
    · intro h; cases h
    · rintro ⟨h, -⟩
      exact absurd (List.eq_nil_of_prefix_nil h) hne
  | cons c rest ih =>
    intro i
    simp only [findSub]
    by_cases hp : needle.isPrefixOf (c :: rest)
    · rw [if_pos hp]
      constructor
      · rintro h
        injection h with h; subst h
        refine ⟨by simpa using (List.isPrefixOf_iff_prefix).1 hp, ?_⟩
        intro j hj; omega
      · rintro ⟨-, hmin⟩
        by_cases hi : i = 0
        · simp [hi]
        · exact absurd (by simpa using (List.isPrefixOf_iff_prefix).1 hp)
            (hmin 0 (Nat.pos_of_ne_zero hi))
    · rw [if_neg hp]
      constructor
      · intro h
        rcases Option.map_eq_some'.1 h with ⟨k, hk, rfl⟩
        rcases (ih k).1 hk with ⟨hpre, hmin⟩
        refine ⟨by simpa using hpre, ?_⟩
        intro j hj
        cases j with
        | zero =>
          simpa [List.isPrefixOf_iff_prefix] using hp
        | succ j =>
          simpa using hmin j (by omega)
      · rintro ⟨hpre, hmin⟩
        cases i with
        | zero =>
          exact absurd ((List.isPrefixOf_iff_prefix).2 (by simpa using hpre)) hp
        | succ i =>
          have := (ih i).2 ⟨by simpa using hpre, fun j hj => by
            simpa using hmin (j + 1) (by omega)⟩
          simp [this]

theorem findSub_eq_none (needle : List Char) (hne : needle ≠ []) (hay : List Char) :
    findSub needle hay = none ↔ ∀ i, ¬ needle <+: hay.drop i := by
  induction hay with
  | nil =>
    simp only [findSub, List.isEmpty_iff, if_neg hne, List.drop_nil]
    constructor
    · intro _ i h
      exact absurd (List.eq_nil_of_prefix_nil h) hne
    · intro _; trivial
  | cons c rest ih =>
    simp only [findSub]
    by_cases hp : needle.isPrefixOf (c :: rest)
    · rw [if_pos hp]
      constructor
      · intro h; cases h
      · intro h
        exact absurd ((List.isPrefixOf_iff_prefix).1 hp) (by simpa using h 0)
    · rw [if_neg hp]
      simp only [Option.map_eq_none', ih]
      constructor
      · intro h i
        cases i with
        | zero => simpa [List.isPrefixOf_iff_prefix] using hp
        | succ i => simpa using h i
      · intro h i
        simpa using h (i + 1)


theorem hasSub_iff_findSub (needle hay : List Char) (hne : needle ≠ []) :
    hasSub needle hay ↔ (findSub needle hay).isSome := by
  constructor
  · intro h
    cases hf : findSub needle hay with
    | none =>
      rcases h with ⟨i, hi⟩
      exact absurd hi (((findSub_eq_none needle hne hay).1 hf) i)
    | some i => simp
  · intro h
    rcases Option.isSome_iff_exists.1 h with ⟨i, hi⟩
    exact ⟨i, ((findSub_eq_some needle hne hay i).1 hi).1⟩

/-- C8, corrected form.  fixFreebaseValue rewrites a value exactly when it
CONTAINS "freebase.com/" and does not CONTAIN "http://www.freebase.com/";
the rewrite prepends "http://www." to the suffix starting at the leftmost
occurrence of "freebase.com/" (pre is the shortest split with the needle a
prefix of the remainder); in every other case the value is unchanged. -/
theorem freebase_rewrite_characterisation (s : String) :
    (hasSub fbNeedle s.toList ∧ ¬ hasSub fbFull s.toList →
      ∃ pre suf, s.toList = pre ++ suf ∧ fbNeedle <+: suf ∧
        (∀ p q, s.toList = p ++ q → fbNeedle <+: q → pre.length ≤ p.length) ∧
        fixFreebaseValue s = (fbWww ++ suf).asString) ∧
    (¬ (hasSub fbNeedle s.toList ∧ ¬ hasSub fbFull s.toList) →
      fixFreebaseValue s = s) := by
  have hne : fbNeedle ≠ [] := by decide
  have hnf : fbFull ≠ [] := by decide
  constructor
  · rintro ⟨h1, h2⟩
    have hsome := (hasSub_iff_findSub fbNeedle s.toList hne).1 h1
    rcases Option.isSome_iff_exists.1 hsome with ⟨i, hi⟩
    have hnone : findSub fbFull s.toList = none := by
      cases hf : findSub fbFull s.toList with
      | none => rfl
      | some j =>
        exact absurd ⟨j, ((findSub_eq_some fbFull hnf s.toList j).1 hf).1⟩ h2
    rcases (findSub_eq_some fbNeedle hne s.toList i).1 hi with ⟨hpre, hmin⟩
    have hilen : i < s.toList.length := by
      by_contra hge
      have : s.toList.drop i = [] := List.drop_eq_nil_iff.2 (by omega)
      rw [this] at hpre
      exact hne (List.eq_nil_of_prefix_nil hpre)
    refine ⟨s.toList.take i, s.toList.drop i,
      (List.take_append_drop i s.toList).symm, hpre, ?_, ?_⟩
    · intro p q hpq hq
      have hlen : (s.toList.take i).length = i := by
        rw [List.length_take]
        omega
      rw [hlen]
      by_contra hlt
      have hq2 : q = s.toList.drop p.length := by
        rw [hpq, List.drop_left]
      exact hmin p.length (by omega) (hq2 ▸ hq)
    · simp only [fixFreebaseValue]
      rw [hi, hnone]
  · intro h
    simp only [fixFreebaseValue]
    cases hf : findSub fbNeedle s.toList with
    | none => rfl
    | some i =>
      cases hg : findSub fbFull s.toList with
      | none =>
        exfalso
        apply h
        refine ⟨⟨i, ((findSub_eq_some fbNeedle hne s.toList i).1 hf).1⟩, ?_⟩
        intro ⟨j, hj⟩
        exact ((findSub_eq_none fbFull hnf s.toList).1 hg) j hj
      | some j => rfl

/-- C8 witness: on "m.123/freebase.com/type/X" the characterisation applies
and yields the rewritten value "http://www.freebase.com/type/X". -/
theorem freebase_rewrite_witness :
    fixFreebaseValue "m.123/freebase.com/type/X" =
      "http://www.freebase.com/type/X" := by
  have h := (freebase_rewrite_characterisation "m.123/freebase.com/type/X").1
    ⟨⟨6, by decide⟩, fun hfull => by
      rcases hfull with ⟨j, hj⟩
      exact (findSub_eq_none fbFull (by decide)
        ("m.123/freebase.com/type/X").toList).1 (by decide) j hj⟩
  rcases h with ⟨pre, suf, hsplit, hpre, hminim, hval⟩
  have hps : pre.length = 6 := by
    have h6 := hminim (("m.123/").toList) (("freebase.com/type/X").toList)
      (by decide) (by decide)
    by_contra hne6
    have hlt : pre.length < 6 ∨ 6 < pre.length := by omega
    rcases hlt with hlt | hgt
    · have hq : suf = ("m.123/freebase.com/type/X").toList.drop pre.length := by
        rw [hsplit, List.drop_left]
      have : ¬ fbNeedle <+: ("m.123/freebase.com/type/X").toList.drop pre.length := by
        interval_cases h : pre.length <;> decide
      exact absurd (hq ▸ hpre) this
    · simp at h6; omega
  have hsuf : suf = ("freebase.com/type/X").toList := by
    have := hsplit
    have hdrop : suf = ("m.123/freebase.com/type/X").toList.drop pre.length := by
      rw [hsplit, List.drop_left]
    rw [hdrop, hps]
    decide
  rw [hval, hsuf]
  decide

/-- C8 counterexample: a value in which "http://www.freebase.com/" occurs
but not at the start.  The claimed begins-with rule (specFixFreebaseValue)
rewrites it, while the code (fixFreebaseValue) leaves it unchanged. -/
theorem freebase_beginswith_counterexample :
    fixFreebaseValue "xhttp://www.freebase.com/a" =
        "xhttp://www.freebase.com/a" ∧
      specFixFreebaseValue "xhttp://www.freebase.com/a" =
        "http://www.freebase.com/a" ∧
      fixFreebaseValue "xhttp://www.freebase.com/a" ≠
        specFixFreebaseValue "xhttp://www.freebase.com/a" := by
  refine ⟨by decide, by decide, by decide⟩

theorem blank_not_header (line : List Char) (hb : blankLine line)
    (head : List Char) (c : Char) (t : List Char) (hhead : head = c :: t)
    (hc : pyIsSpace c = false) : head.isPrefixOf line = false := by
  by_contra h
  have h1 : head.isPrefixOf line = true := by
    cases hbv : head.isPrefixOf line
    · exact absurd hbv h
    · rfl
  have hpre : head <+: line := (List.isPrefixOf_iff_prefix).1 h1
  rcases hpre with ⟨u, hu⟩
  have hmem : c ∈ line := by
    rw [← hu, hhead]
    simp
  have := hb.2 c hmem
  rw [hc] at this
  cases this

theorem pyStrip_of_blank (line : List Char) (hall : ∀ c ∈ line, pyIsSpace c) :
    pyStrip line = [] := by
  unfold pyStrip
  have h1 : line.dropWhile pyIsSpace = [] := by
    induction line with
    | nil => rfl
    | cons c cs ih =>
      rw [List.dropWhile_cons_of_pos (hall c (by simp))]
      exact ih (fun x hx => hall x (by simp [hx]))
  rw [h1]
  rfl

/-- C10, corrected form.  In parse_relations every non-empty line consisting
only of whitespace is fatal: if it does not begin with a tab it takes the
invalid-format branch (error printed, exit status 1); if it begins with a
tab it reaches the pair branch, strips to the empty string, and the
one-element split makes the tuple unpacking raise an uncaught ValueError.
Blank separator lines between sections are never ignored. -/
theorem parse_blank_line_fatal (kb2name : List Char)
    (f1 f2 : List (List Char × Nat)) (line : List Char)
    (hb : blankLine line) :
    parseRelLine kb2name f1 f2 line =
      (if ['\t'].isPrefixOf line then .valueError else .configExit) := by
  have hU := blank_not_header line hb ("UNIQUE:").toList 'U'
    ("NIQUE:").toList (by decide) (by decide)
  have hN := blank_not_header line hb ("NAME:").toList 'N'
    ("AME:").toList (by decide) (by decide)
  have hO := blank_not_header line hb ("OTHER:").toList 'O'
    ("THER:").toList (by decide) (by decide)
  unfold parseRelLine
  rw [if_neg hb.1, hU, hN, hO]
  simp only [Bool.false_eq_true, if_false]
  by_cases ht : ['\t'].isPrefixOf line
  · rw [if_pos ht, if_pos ht]
    rw [pyStrip_of_blank line hb.2]
    rfl
  · rw [if_neg ht, if_neg ht]

/-- C10 witness: a space-and-newline separator line takes the
invalid-format exit branch. -/
theorem parse_blank_line_fatal_witness :
    blankLine (" \n").toList ∧
      parseRelLine ("kb2").toList [] [] (" \n").toList =
        LineOutcome.configExit := by
  have hb : blankLine (" \n").toList := by
    constructor
    · decide
    · decide
  refine ⟨hb, ?_⟩
  have := parse_blank_line_fatal ("kb2").toList [] [] (" \n").toList hb
  simpa using this

/-- C10 counterexample: a line consisting of a single tab (plus newline) is
blank in the claim's sense, yet the code reaches the pair branch and raises
ValueError instead of printing the config error and exiting; so not every
blank line takes the error-and-exit-1 path the claim describes. -/
theorem parse_blank_tab_counterexample :
    blankLine ("\t\n").toList ∧
      parseRelLine ("kb2").toList [] [] ("\t\n").toList =
        LineOutcome.valueError ∧
      parseRelLine ("kb2").toList [] [] ("\t\n").toList ≠
        LineOutcome.configExit := by
  refine ⟨⟨by decide, by decide⟩, by decide, by decide⟩

/-- C3.  When Phase A finds a tentative unique match m for KB1 record i but
the conflict guard _checkUnique fails, the step only appends the diagnostic
produced by _getCheckUniqueErrorUriList: kb1 (so i's matched pointer and
used flag), kb2 (so m's used flag) and the KB1 index are all unchanged, and
the loop proceeds to the next record. -/
theorem phaseA_conflict_state_unchanged (cmp : String → String → Bool)
    (rels : List Rel) (treshold : Int) (st : MState) (i m : Nat)
    (hm : matchByUnique st (st.kb1.getD i mdefault) rels = some m)
    (hc : checkUnique st rels i (st.kb2.getD m mdefault) = false) :
    (matchStep cmp rels treshold st i).kb1 = st.kb1 ∧
    (matchStep cmp rels treshold st i).kb2 = st.kb2 ∧
    (matchStep cmp rels treshold st i).extra = st.extra ∧
    (matchStep cmp rels treshold st i).diags =
      st.diags ++ [getErrUris st rels i (st.kb2.getD m mdefault)] := by
  simp only [matchStep, hm, hc]
  exact ⟨rfl, rfl, rfl, rfl⟩

/-- C3 witness: in exConflictSt the first KB1 record tentatively matches
KB2 record 0, the guard fails, and the step leaves every state component
unchanged except for the appended diagnostic. -/
theorem phaseA_conflict_state_unchanged_witness :
    matchByUnique exConflictSt (exConflictSt.kb1.getD 0 mdefault)
        exConflictRels = some 0 ∧
      checkUnique exConflictSt exConflictRels 0
        (exConflictSt.kb2.getD 0 mdefault) = false ∧
      (matchStep eqCmp exConflictRels 1 exConflictSt 0).kb1 =
        exConflictSt.kb1 ∧
      (matchStep eqCmp exConflictRels 1 exConflictSt 0).diags =
        exConflictSt.diags ++
          [getErrUris exConflictSt exConflictRels 0
            (exConflictSt.kb2.getD 0 mdefault)] := by
  have h := phaseA_conflict_state_unchanged eqCmp exConflictRels 1
    exConflictSt 0 0 (by decide) (by decide)
  exact ⟨by decide, by decide, h.1, h.2.2.2⟩

/-- C7, corrected form.  When the Phase A guard rejects the tentative
unique match of record i, the match loop emits the diagnostic and moves on
to the remaining records: the rest of the run starts from the state with
only the diagnostic appended, so Phase B is never attempted for record i. -/
theorem phaseA_conflict_skips_to_next (cmp : String → String → Bool)
    (rels : List Rel) (treshold : Int) (st : MState) (i m : Nat)
    (rest : List Nat)
    (hm : matchByUnique st (st.kb1.getD i mdefault) rels = some m)
    (hc : checkUnique st rels i (st.kb2.getD m mdefault) = false) :
    runMatchFrom cmp rels treshold st (i :: rest) =
      runMatchFrom cmp rels treshold
        { st with diags := st.diags ++
            [getErrUris st rels i (st.kb2.getD m mdefault)] } rest := by
  have hstep : matchStep cmp rels treshold st i =
      { st with diags := st.diags ++
          [getErrUris st rels i (st.kb2.getD m mdefault)] } := by
    simp only [matchStep, hm, hc, Bool.false_eq_true, if_false]
  simp only [runMatchFrom, List.foldl_cons, hstep]

/-- C7 witness: concrete application of the skip lemma on exConflictSt. -/
theorem phaseA_conflict_skips_to_next_witness :
    runMatchFrom eqCmp exConflictRels 1 exConflictSt [0] =
      runMatchFrom eqCmp exConflictRels 1
        { exConflictSt with diags := exConflictSt.diags ++
            [getErrUris exConflictSt exConflictRels 0
              (exConflictSt.kb2.getD 0 mdefault)] } [] :=
  phaseA_conflict_skips_to_next eqCmp exConflictRels 1 exConflictSt 0 0 []
    (by decide) (by decide)

/-- C7 counterexample: in exConflictSt the guard rejects the tentative
unique match of record 0, and the record is skipped unmatched although a
Phase B evaluation of the same record would have matched it to KB2
record 1; the claim that the record then proceeds to Phase B is false. -/
theorem phaseA_conflict_no_phaseB_counterexample :
    matchByUnique exConflictSt (exConflictSt.kb1.getD 0 mdefault)
        exConflictRels = some 0 ∧
      checkUnique exConflictSt exConflictRels 0
        (exConflictSt.kb2.getD 0 mdefault) = false ∧
      ((matchStep eqCmp exConflictRels 1 exConflictSt 0).kb1.getD 0
        mdefault).matched = none ∧
      ((phaseB eqCmp exConflictRels 1 exConflictSt 0).kb1.getD 0
        mdefault).matched = some 1 := by
  refine ⟨by decide, by decide, by decide, by decide⟩

theorem getD_set_self {α : Type _} (l : List α) (i : Nat) (x d : α)
    (h : i < l.length) : (l.set i x).getD i d = x := by
  rw [List.getD_eq_getElem?_getD, List.getElem?_set_self h]
  rfl

theorem getD_set_ne {α : Type _} (l : List α) (i j : Nat) (x d : α)
    (h : i ≠ j) : (l.set i x).getD j d = l.getD j d := by
  rw [List.getD_eq_getElem?_getD, List.getElem?_set_ne h,
    ← List.getD_eq_getElem?_getD]

theorem foldl_invariant {α β : Type _} (P : β → Prop) (f : β → α → β)
    (l : List α) (b : β) (h0 : P b)
    (hstep : ∀ b a, a ∈ l → P b → P (f b a)) : P (l.foldl f b) := by
  induction l generalizing b with
  | nil => exact h0
  | cons x xs ih =>
    exact ih (f b x) (hstep b x (by simp) h0)
      (fun b a ha hb => hstep b a (by simp [ha]) hb)

theorem mem_mkIndex_lt (ents : List MEnt) (rels : List Rel)
    (sel : Rel → Nat) (f : Nat) (v : String) (e : Nat)
    (h : e ∈ mkIndex ents rels sel f v) : e < ents.length := by
  unfold mkIndex at h
  split at h
  · exact List.mem_range.1 (List.mem_filter.1 h).1
  · cases h

theorem bumpWeight_entry (l : List MEnt) (k j : Nat) :
    ((bumpWeight l k).getD j mdefault).data = (l.getD j mdefault).data ∧
    ((bumpWeight l k).getD j mdefault).used = (l.getD j mdefault).used ∧
    ((bumpWeight l k).getD j mdefault).matched = (l.getD j mdefault).matched ∧
    (bumpWeight l k).length = l.length := by
  unfold bumpWeight
  by_cases hkj : k = j
  · subst hkj
    by_cases hk : k < l.length
    · rw [getD_set_self _ _ _ _ hk]
      exact ⟨rfl, rfl, rfl, List.length_set l k _⟩
    · rw [List.set_eq_of_length_le (by omega)]
      exact ⟨rfl, rfl, rfl, rfl⟩
  · rw [getD_set_ne _ _ _ _ _ hkj]
    exact ⟨rfl, rfl, rfl, List.length_set l k _⟩

theorem matchByName_facts (st : MState) (e : MEnt) (rels : List Rel) :
    nameAccInv st (matchByName st e rels) := by
  unfold matchByName
  refine foldl_invariant (nameAccInv st)
    _ _ _ ⟨rfl, fun j => ⟨rfl, rfl, rfl⟩, List.nodup_nil, by simp⟩ ?_
  intro acc r hr hacc
  refine foldl_invariant (nameAccInv st) _ _ _ hacc ?_
  intro acc v hv hacc2
  by_cases hve : v ≠ ""
  · simp only [if_pos hve]
    refine foldl_invariant (nameAccInv st) _ _ _ hacc2 ?_
    intro acc2 j hj hacc3
    unfold nameAccInv at hacc3 ⊢
    by_cases hu : (acc2.1.getD j mdefault).used
    · simp only [hu, Bool.not_true, Bool.false_eq_true, if_false]
      exact hacc3
    · simp only [eq_false_of_ne_true hu, Bool.not_false, if_true]
      have hb := fun j2 => bumpWeight_entry acc2.1 j j2
      refine ⟨(hb 0).2.2.2.trans hacc3.1, ?_, ?_, ?_⟩
      · intro j2
        rcases hb j2 with ⟨h1, h2, h3, -⟩
        rcases hacc3.2.1 j2 with ⟨g1, g2, g3⟩
        exact ⟨h1.trans g1, h2.trans g2, h3.trans g3⟩
      · by_cases hmem : j ∈ acc2.2
        · simpa [hmem] using hacc3.2.2.1
        · simp only [hmem, if_false]
          exact List.Nodup.append hacc3.2.2.1 (List.nodup_singleton j)
            (by simpa using hmem)
      · intro j2 hj2
        by_cases hmem : j ∈ acc2.2
        · exact hacc3.2.2.2 j2 (by simpa [hmem] using hj2)
        · simp only [hmem, if_false, List.mem_append, List.mem_singleton] at hj2
          rcases hj2 with hj2 | rfl
          · exact hacc3.2.2.2 j2 hj2
          · refine ⟨mem_mkIndex_lt st.kb2 rels _ _ _ j2 hj, ?_⟩
            have := (hacc3.2.1 j2).2.1
            rw [← this]
            exact eq_false_of_ne_true hu
  · simp only [if_neg hve]
    exact hacc2

theorem scoreCandidate_entry (cmp : String → String → Bool) (st : MState)
    (rels : List Rel) (t : Int) (e1 : Nat) (c : MEnt) :
    (scoreCandidate cmp st rels t e1 c).data = c.data ∧
    (scoreCandidate cmp st rels t e1 c).used = c.used ∧
    (scoreCandidate cmp st rels t e1 c).matched = c.matched := by
  unfold scoreCandidate applyVeto
  dsimp only
  split_ifs <;> exact ⟨rfl, rfl, rfl⟩

theorem scoreAll_length (cmp : String → String → Bool) (st : MState)
    (rels : List Rel) (t : Int) (e1 : Nat) (kb2 : List MEnt)
    (cands : List Nat) :
    (scoreAll cmp st rels t e1 kb2 cands).length = kb2.length := by
  unfold scoreAll
  refine foldl_invariant (fun (l : List MEnt) => l.length = kb2.length) _ _ _ rfl ?_
  intro l j _ hl
  rw [List.length_set, hl]

theorem scoreAll_entry (cmp : String → String → Bool) (st : MState)
    (rels : List Rel) (t : Int) (e1 : Nat) (kb2 : List MEnt)
    (cands : List Nat) (j : Nat) :
    ((scoreAll cmp st rels t e1 kb2 cands).getD j mdefault).data =
      (kb2.getD j mdefault).data ∧
    ((scoreAll cmp st rels t e1 kb2 cands).getD j mdefault).used =
      (kb2.getD j mdefault).used ∧
    ((scoreAll cmp st rels t e1 kb2 cands).getD j mdefault).matched =
      (kb2.getD j mdefault).matched := by
  unfold scoreAll
  refine foldl_invariant (fun (l : List MEnt) =>
    ((l.getD j mdefault).data = (kb2.getD j mdefault).data ∧
     (l.getD j mdefault).used = (kb2.getD j mdefault).used ∧
     (l.getD j mdefault).matched = (kb2.getD j mdefault).matched))
    _ _ _ ⟨rfl, rfl, rfl⟩ ?_
  intro l k _ hl
  by_cases hkj : k = j
  · subst hkj
    by_cases hk : k < l.length
    · rw [getD_set_self _ _ _ _ hk]
      have := scoreCandidate_entry cmp st rels t e1 (l.getD k mdefault)
      exact ⟨this.1.trans hl.1, this.2.1.trans hl.2.1, this.2.2.trans hl.2.2⟩
    · rw [List.set_eq_of_length_le (by omega)]
      exact hl
  · rw [getD_set_ne _ _ _ _ _ hkj]
    exact hl

theorem scoreAll_getD_notmem (cmp : String → String → Bool) (st : MState)
    (rels : List Rel) (t : Int) (e1 : Nat) (kb2 : List MEnt)
    (cands : List Nat) (j : Nat) (hj : j ∉ cands) :
    (scoreAll cmp st rels t e1 kb2 cands).getD j mdefault =
      kb2.getD j mdefault := by
  unfold scoreAll
  refine foldl_invariant (fun (l : List MEnt) => l.getD j mdefault = kb2.getD j mdefault)
    _ _ _ rfl ?_
  intro l k hk hl
  have hkj : k ≠ j := fun h => hj (h ▸ hk)
  rw [getD_set_ne _ _ _ _ _ hkj, hl]

theorem scoreAll_getD_mem (cmp : String → String → Bool) (st : MState)
    (rels : List Rel) (t : Int) (e1 : Nat) (kb2 : List MEnt)
    (cands : List Nat) (hnd : cands.Nodup) (j : Nat) (hj : j ∈ cands)
    (hlt : j < kb2.length) :
    (scoreAll cmp st rels t e1 kb2 cands).getD j mdefault =
      scoreCandidate cmp st rels t e1 (kb2.getD j mdefault) := by
  have main : ∀ (cs : List Nat) (l : List MEnt), cs.Nodup → j ∈ cs →
      j < l.length →
      (scoreAll cmp st rels t e1 l cs).getD j mdefault =
        scoreCandidate cmp st rels t e1 (l.getD j mdefault) := by
    intro cs
    induction cs with
    | nil =>
      intro l _ hjm _
      cases hjm
    | cons k rest ih =>
      intro l hnd2 hjm hlt2
      rcases List.mem_cons.1 hjm with rfl | hjr
      · have hnotrest : j ∉ rest := (List.nodup_cons.1 hnd2).1
        unfold scoreAll
        rw [List.foldl_cons]
        have h2 := scoreAll_getD_notmem cmp st rels t e1
          (l.set j (scoreCandidate cmp st rels t e1 (l.getD j mdefault)))
          rest j hnotrest
        unfold scoreAll at h2
        rw [h2, getD_set_self _ _ _ _ hlt2]
      · have hkj : k ≠ j := fun h => (List.nodup_cons.1 hnd2).1 (h ▸ hjr)
        unfold scoreAll
        rw [List.foldl_cons]
        have ih2 := ih (l.set k (scoreCandidate cmp st rels t e1
            (l.getD k mdefault))) (List.Nodup.of_cons hnd2) hjr
          (by rw [List.length_set]; exact hlt2)
        unfold scoreAll at ih2
        rw [ih2, getD_set_ne _ _ _ _ _ hkj]
  exact main cands kb2 hnd hj hlt

theorem pickFold_ge_init (kb2s : List MEnt) (l : List Nat) (b : Nat) :
    (kb2s.getD b mdefault).weight ≤
      (kb2s.getD (l.foldl (fun b j =>
        if (kb2s.getD b mdefault).weight < (kb2s.getD j mdefault).weight
        then j else b) b) mdefault).weight := by
  induction l generalizing b with
  | nil => exact le_refl _
  | cons x xs ih =>
    rw [List.foldl_cons]
    by_cases h : (kb2s.getD b mdefault).weight < (kb2s.getD x mdefault).weight
    · rw [if_pos h]
      exact le_of_lt (lt_of_lt_of_le h (ih x))
    · rw [if_neg h]
      exact ih b

theorem pickFold_ge_mem (kb2s : List MEnt) (l : List Nat) (b j : Nat)
    (hj : j ∈ l) :
    (kb2s.getD j mdefault).weight ≤
      (kb2s.getD (l.foldl (fun b j =>
        if (kb2s.getD b mdefault).weight < (kb2s.getD j mdefault).weight
        then j else b) b) mdefault).weight := by
  induction l generalizing b with
  | nil => cases hj
  | cons x xs ih =>
    rw [List.foldl_cons]
    rcases List.mem_cons.1 hj with rfl | hjx
    · by_cases h : (kb2s.getD b mdefault).weight < (kb2s.getD j mdefault).weight
      · rw [if_pos h]
        exact pickFold_ge_init kb2s xs j
      · rw [if_neg h]
        exact le_trans (le_of_not_lt h) (pickFold_ge_init kb2s xs b)
    · exact ih _ hjx

theorem pickBest_ge (kb2s : List MEnt) (cands : List Nat) (j : Nat)
    (hj : j ∈ cands) :
    (kb2s.getD j mdefault).weight ≤
      (kb2s.getD (pickBest kb2s cands) mdefault).weight :=
  pickFold_ge_mem kb2s cands (cands.headD 0) j hj

theorem pickBest_mem (kb2s : List MEnt) (cands : List Nat)
    (hne : cands ≠ []) : pickBest kb2s cands ∈ cands := by
  unfold pickBest
  have hhead : cands.headD 0 ∈ cands := by
    cases cands with
    | nil => exact absurd rfl hne
    | cons x xs => simp
  refine foldl_invariant (fun (b : Nat) => b ∈ cands) _ _ _ hhead ?_
  intro b j hjc hb
  by_cases h : (kb2s.getD b mdefault).weight < (kb2s.getD j mdefault).weight
  · rw [if_pos h]; exact hjc
  · rw [if_neg h]; exact hb

theorem updateUnique_parts (st : MState) (rels : List Rel) (i : Nat) :
    (updateUnique st rels i).kb1 = st.kb1 ∧
    (updateUnique st rels i).kb2 = st.kb2 ∧
    (updateUnique st rels i).diags = st.diags := by
  unfold updateUnique
  cases (st.kb1.getD i mdefault).matched with
  | none => exact ⟨rfl, rfl, rfl⟩
  | some m => exact ⟨rfl, rfl, rfl⟩

theorem scoreCandidate_veto_weight (cmp : String → String → Bool)
    (st : MState) (rels : List Rel) (t : Int) (e1 : Nat) (c : MEnt)
    (hveto : (uniqOf rels).any (fun r =>
      decide (getFieldE (st.kb1.getD e1 mdefault) r.kb1f ≠ [] ∧
        getFieldE c r.kb2f ≠ [] ∧
        (getFieldE (st.kb1.getD e1 mdefault) r.kb1f).headD "" ≠
          (getFieldE c r.kb2f).headD "")) = true)
    (ht : (-999 : Int) < t) :
    (scoreCandidate cmp st rels t e1 c).weight ≤ -999 := by
  unfold scoreCandidate applyVeto
  dsimp only
  rw [if_pos hveto]
  split_ifs <;> (try dsimp only at *) <;> omega

theorem scoreCandidate_weight_mono (cmp : String → String → Bool)
    (st : MState) (rels : List Rel) (t tp : Int) (e1 : Nat) (c : MEnt)
    (h : t ≤ tp) :
    (scoreCandidate cmp st rels tp e1 c).weight ≤
      (scoreCandidate cmp st rels t e1 c).weight := by
  unfold scoreCandidate applyVeto
  dsimp only
  split_ifs <;> (try dsimp only at *) <;> omega

theorem phaseB_kb1_char (cmp : String → String → Bool) (rels : List Rel)
    (treshold : Int) (st : MState) (i : Nat)
    (hne : phaseBCands st rels i ≠ []) :
    (phaseB cmp rels treshold st i).kb1 =
      (if treshold ≤ ((phaseBScored cmp st rels treshold i).getD
          (pickBest (phaseBScored cmp st rels treshold i)
            (phaseBCands st rels i)) mdefault).weight then
        st.kb1.set i { st.kb1.getD i mdefault with
          matched := some (pickBest (phaseBScored cmp st rels treshold i)
            (phaseBCands st rels i)),
          used := true }
      else st.kb1) := by
  unfold phaseB
  have hne2 : (matchByName st (st.kb1.getD i mdefault) rels).2 ≠ [] := hne
  dsimp only
  rw [if_neg hne2]
  rw [(updateUnique_parts _ rels i).1]
  dsimp only
  rw [apply_ite (fun (s : MState) => s.kb1)]
  rfl

/-- C5, corrected form.  In Phase B, a candidate c on which some UNIQUE
relation has both sides non-empty with differing first values carries a
selection-time weight of at most -999 (the code may overwrite the -1000
veto with -999 when _checkUnique also fails), and for any positive treshold
the record is never matched to c. -/
theorem phaseB_veto_never_chosen (cmp : String → String → Bool)
    (rels : List Rel) (treshold : Int) (st : MState) (i c : Nat)
    (hi : i < st.kb1.length)
    (hmatched : (st.kb1.getD i mdefault).matched = none)
    (hmbu : matchByUnique st (st.kb1.getD i mdefault) rels = none)
    (hc : c ∈ phaseBCands st rels i)
    (hveto : ∃ r ∈ uniqOf rels,
      getFieldE (st.kb1.getD i mdefault) r.kb1f ≠ [] ∧
      getFieldE (st.kb2.getD c mdefault) r.kb2f ≠ [] ∧
      (getFieldE (st.kb1.getD i mdefault) r.kb1f).headD "" ≠
        (getFieldE (st.kb2.getD c mdefault) r.kb2f).headD "")
    (ht : 0 < treshold) :
    ((phaseBScored cmp st rels treshold i).getD c mdefault).weight ≤ -999 ∧
    ((matchStep cmp rels treshold st i).kb1.getD i mdefault).matched ≠
      some c := by
  have facts := matchByName_facts st (st.kb1.getD i mdefault) rels
  have hclt2 : c < st.kb2.length := (facts.2.2.2 c hc).1
  have hclt : c < (matchByName st (st.kb1.getD i mdefault) rels).1.length := by
    rw [facts.1]; exact hclt2
  have hdata : ((matchByName st (st.kb1.getD i mdefault) rels).1.getD c
      mdefault).data = (st.kb2.getD c mdefault).data := (facts.2.1 c).1
  have hveto2 : (uniqOf rels).any (fun r =>
      decide (getFieldE (st.kb1.getD i mdefault) r.kb1f ≠ [] ∧
        getFieldE ((matchByName st (st.kb1.getD i mdefault) rels).1.getD c
          mdefault) r.kb2f ≠ [] ∧
        (getFieldE (st.kb1.getD i mdefault) r.kb1f).headD "" ≠
          (getFieldE ((matchByName st (st.kb1.getD i mdefault) rels).1.getD c
            mdefault) r.kb2f).headD "")) = true := by
    rcases hveto with ⟨r, hr, h1, h2, h3⟩
    rw [List.any_eq_true]
    refine ⟨r, hr, ?_⟩
    rw [decide_eq_true_eq]
    unfold getFieldE at h2 h3 ⊢
    rw [hdata]
    exact ⟨h1, h2, h3⟩
  have hwc : ((phaseBScored cmp st rels treshold i).getD c mdefault).weight
      ≤ -999 := by
    unfold phaseBScored phaseBCands
    rw [scoreAll_getD_mem cmp st rels treshold i _ _ facts.2.2.1 c hc hclt]
    exact scoreCandidate_veto_weight cmp st rels treshold i _ hveto2
      (by omega)
  refine ⟨hwc, ?_⟩
  have hstep : matchStep cmp rels treshold st i =
      phaseB cmp rels treshold st i := by
    simp only [matchStep, hmbu]
  rw [hstep]
  have hcne : phaseBCands st rels i ≠ [] := by
    intro h; rw [h] at hc; cases hc
  rw [phaseB_kb1_char cmp rels treshold st i hcne]
  by_cases hlink : treshold ≤ ((phaseBScored cmp st rels treshold i).getD
      (pickBest (phaseBScored cmp st rels treshold i)
        (phaseBCands st rels i)) mdefault).weight
  · rw [if_pos hlink, getD_set_self _ _ _ _ hi]
    intro hsome
    have hbc : pickBest (phaseBScored cmp st rels treshold i)
        (phaseBCands st rels i) = c := by
      exact Option.some.inj hsome
    rw [hbc] at hlink
    omega
  · rw [if_neg hlink, hmatched]
    intro hsome
    cases hsome

/-- C5 witness: in exVetoSt the sole candidate of record 0 disagrees on the
UNIQUE identifier, so its selection-time weight is at most -999 and it is
not chosen at treshold 1. -/
theorem phaseB_veto_never_chosen_witness :
    ((phaseBScored eqCmp exVetoSt exVetoRels 1 0).getD 0 mdefault).weight
        ≤ -999 ∧
      ((matchStep eqCmp exVetoRels 1 exVetoSt 0).kb1.getD 0
        mdefault).matched ≠ some 0 :=
  phaseB_veto_never_chosen eqCmp exVetoRels 1 exVetoSt 0 0 (by decide)
    (by decide) (by decide) (by decide)
    ⟨{ kb1f := 0, kb2f := 0, rty := .unique }, by decide, by decide,
      by decide, by decide⟩ (by decide)

/-- C5 counterexample: in exVetoSt the vetoed candidate also fails the
conflict guard, so its selection-time weight is -999, not at most -1000 as
the claim states. -/
theorem phaseB_veto_weight_counterexample :
    (∃ r ∈ uniqOf exVetoRels,
      getFieldE (exVetoSt.kb1.getD 0 mdefault) r.kb1f ≠ [] ∧
      getFieldE (exVetoSt.kb2.getD 0 mdefault) r.kb2f ≠ [] ∧
      (getFieldE (exVetoSt.kb1.getD 0 mdefault) r.kb1f).headD "" ≠
        (getFieldE (exVetoSt.kb2.getD 0 mdefault) r.kb2f).headD "") ∧
    ((phaseBScored eqCmp exVetoSt exVetoRels 1 0).getD 0 mdefault).weight
        = -999 ∧
    ¬ ((phaseBScored eqCmp exVetoSt exVetoRels 1 0).getD 0
        mdefault).weight ≤ -1000 := by
  refine ⟨⟨{ kb1f := 0, kb2f := 0, rty := .unique }, by decide, by decide,
    by decide, by decide⟩, by decide, by decide⟩

/-- C6, corrected form.  Globally the matched pair set is not antitone in
the treshold (see the counterexample), but per record it is: with the state
fixed, a KB1 record that ends up matched at treshold tp is also matched at
any treshold t ≤ tp (possibly to a different KB2 record), because Phase A
ignores the treshold and in Phase B every candidate's selection-time weight
only grows when the treshold drops. -/
theorem treshold_monotone_record (cmp : String → String → Bool)
    (rels : List Rel) (t tp : Int) (st : MState) (i : Nat)
    (htt : t ≤ tp) (hi : i < st.kb1.length)
    (hmatched : (st.kb1.getD i mdefault).matched = none) :
    ((matchStep cmp rels tp st i).kb1.getD i mdefault).matched.isSome →
    ((matchStep cmp rels t st i).kb1.getD i mdefault).matched.isSome := by
  intro hsome
  cases hmbu : matchByUnique st (st.kb1.getD i mdefault) rels with
  | some m =>
    simp only [matchStep, hmbu] at hsome ⊢
    by_cases hcu : checkUnique st rels i (st.kb2.getD m mdefault) = true
    · rw [if_pos hcu] at hsome ⊢
      rw [(updateUnique_parts _ rels i).1] at hsome ⊢
      dsimp only at hsome ⊢
      rw [getD_set_self _ _ _ _ hi] at hsome ⊢
      exact hsome
    · rw [if_neg hcu] at hsome
      dsimp only at hsome
      rw [hmatched] at hsome
      cases hsome
  | none =>
    simp only [matchStep, hmbu] at hsome ⊢
    by_cases hcne : phaseBCands st rels i = []
    · exfalso
      have hcne2 : (matchByName st (st.kb1.getD i mdefault) rels).2 = [] :=
        hcne
      unfold phaseB at hsome
      dsimp only at hsome
      rw [if_pos hcne2] at hsome
      dsimp only at hsome
      rw [hmatched] at hsome
      cases hsome
    · have facts := matchByName_facts st (st.kb1.getD i mdefault) rels
      rw [phaseB_kb1_char cmp rels tp st i hcne] at hsome
      rw [phaseB_kb1_char cmp rels t st i hcne]
      have hlinkp : tp ≤ ((phaseBScored cmp st rels tp i).getD
          (pickBest (phaseBScored cmp st rels tp i) (phaseBCands st rels i))
          mdefault).weight := by
        by_contra hno
        rw [if_neg hno, hmatched] at hsome
        cases hsome
      have hbp := pickBest_mem (phaseBScored cmp st rels tp i)
        (phaseBCands st rels i) hcne
      have hwmono0 : ∀ b ∈ phaseBCands st rels i,
          ((phaseBScored cmp st rels tp i).getD b mdefault).weight ≤
          ((phaseBScored cmp st rels t i).getD b mdefault).weight := by
        intro b hb
        have hblt : b <
            (matchByName st (st.kb1.getD i mdefault) rels).1.length := by
          rw [facts.1]
          exact (facts.2.2.2 _ hb).1
        have hb2 : b ∈ (matchByName st (st.kb1.getD i mdefault) rels).2 := hb
        unfold phaseBScored phaseBCands
        rw [scoreAll_getD_mem cmp st rels tp i _ _ facts.2.2.1 _ hb2 hblt,
          scoreAll_getD_mem cmp st rels t i _ _ facts.2.2.1 _ hb2 hblt]
        exact scoreCandidate_weight_mono cmp st rels t tp i _ htt
      have hwmono := hwmono0 _ hbp
      have hge := pickBest_ge (phaseBScored cmp st rels t i)
        (phaseBCands st rels i) _ hbp
      have hlinkt : t ≤ ((phaseBScored cmp st rels t i).getD
          (pickBest (phaseBScored cmp st rels t i) (phaseBCands st rels i))
          mdefault).weight := by omega
      rw [if_pos hlinkt, getD_set_self _ _ _ _ hi]
      rfl

/-- C6 witness: with exThreshSt and tresholds 1 and 2, record 0 is matched
at treshold 2, so the per-record monotonicity lemma yields a match at
treshold 1 as well. -/
theorem treshold_monotone_record_witness :
    ((matchStep eqCmp exThreshRels 1 exThreshSt 0).kb1.getD 0
      mdefault).matched.isSome :=
  treshold_monotone_record eqCmp exThreshRels 1 2 exThreshSt 0 (by decide)
    (by decide) (by decide) (by decide)

/-- C6 counterexample: with all other inputs fixed, the matched pair (0, 0)
produced at treshold 2 is not produced at treshold 1 (which matches record
0 to KB2 record 1 instead), so the matched pair set at the higher treshold
is not a subset of the one at the lower treshold. -/
theorem treshold_monotone_counterexample :
    (1 : Int) ≤ 2 ∧
      (0, 0) ∈ matchedPairs (runMatch eqCmp exThreshRels 2 exThreshSt) ∧
      (0, 0) ∉ matchedPairs (runMatch eqCmp exThreshRels 1 exThreshSt) := by
  refine ⟨by decide, by decide, by decide⟩

theorem renderStepMatched_sticky (kb1name : String)
    (fields1 fields2 : List (String × Nat × Bool)) (rels : List Rel)
    (kb2 : List MEnt) (genId : Nat → String) (line : MEnt)
    (toks : List (Option String)) (e : PyErr) (c : Nat) (pr : List MEnt) :
    toks.foldl (renderStepMatched kb1name fields1 fields2 rels kb2 genId
      line) (Except.error e, c, pr) = (Except.error e, c, pr) := by
  induction toks with
  | nil => rfl
  | cons t ts ih =>
    rw [List.foldl_cons]
    exact ih

theorem makeOutStep_sticky (kb1name : String)
    (fields1 fields2 : List (String × Nat × Bool)) (rels : List Rel)
    (kb2 : List MEnt) (genId : Nat → String)
    (outToks otherToks : List (Option String)) (rest : List MEnt)
    (acc : ROut) (e : PyErr) (herr : acc.err = some e) :
    rest.foldl (makeOutStep kb1name fields1 fields2 rels kb2 genId outToks
      otherToks) acc = acc := by
  induction rest with
  | nil => rfl
  | cons x xs ih =>
    rw [List.foldl_cons]
    rw [show makeOutStep kb1name fields1 fields2 rels kb2 genId outToks
        otherToks acc x = acc from by unfold makeOutStep; rw [herr]]
    exact ih

/-- C9, corrected form.  At output time, a KB1 record with used set and no
matched pointer, rendered against a template whose first token names a KB2
field, is first logged (printed) and then the dereference of the missing
pointer raises AttributeError: the whole KB1 output loop stops with that
error and produces no lines, also for all remaining records.  The renderer
logs but does NOT continue. -/
theorem output_missing_matched_aborts (kb1name : String)
    (fields1 fields2 : List (String × Nat × Bool)) (rels : List Rel)
    (kb2 : List MEnt) (genId : Nat → String) (fname : String)
    (fi : Nat × Bool) (post otherToks : List (Option String)) (line : MEnt)
    (rest : List MEnt)
    (hused : line.used = true) (hm : line.matched = none)
    (hnid : fname ≠ "ID")
    (hnq : ("\"").toList.isPrefixOf fname.toList = false)
    (hnkb1 : kb1name.toList.isPrefixOf fname.toList = false)
    (hf2 : fields2.lookup fname = some fi) :
    (∀ counter printed,
      renderLine kb1name fields1 fields2 rels kb2 genId
        (some fname :: post) otherToks line counter printed =
        (Except.error PyErr.attrError, counter, printed ++ [line])) ∧
    makeOutput kb1name fields1 fields2 rels kb2 genId
        (some fname :: post) otherToks (line :: rest) =
      { lines := [], printed := [line], counter := 0,
        err := some PyErr.attrError } := by
  have htok : ∀ counter printed,
      renderTokMatched kb1name fields1 fields2 rels kb2 genId line
        (some fname) counter printed =
        (Except.error PyErr.attrError, counter, printed ++ [line]) := by
    intro counter printed
    unfold renderTokMatched
    dsimp only
    rw [if_neg hnid]
    simp only [hnq, hnkb1, Bool.false_eq_true, if_false, hf2, hm, if_pos]
  have hline : ∀ counter printed,
      renderLine kb1name fields1 fields2 rels kb2 genId
        (some fname :: post) otherToks line counter printed =
        (Except.error PyErr.attrError, counter, printed ++ [line]) := by
    intro counter printed
    unfold renderLine
    rw [if_pos hused, List.foldl_cons]
    rw [show renderStepMatched kb1name fields1 fields2 rels kb2 genId line
        (Except.ok [], counter, printed) (some fname) =
        (Except.error PyErr.attrError, counter, printed ++ [line]) from by
      unfold renderStepMatched
      dsimp only
      rw [htok counter printed]]
    exact renderStepMatched_sticky kb1name fields1 fields2 rels kb2 genId
      line post PyErr.attrError counter (printed ++ [line])
  refine ⟨hline, ?_⟩
  unfold makeOutput
  rw [List.foldl_cons]
  rw [show makeOutStep kb1name fields1 fields2 rels kb2 genId
      (some fname :: post) otherToks
      { lines := [], printed := [], counter := 0, err := none } line =
      { lines := [], printed := [line], counter := 0,
        err := some PyErr.attrError } from by
    unfold makeOutStep
    dsimp only
    rw [hline 0 []]
    rfl]
  exact makeOutStep_sticky kb1name fields1 fields2 rels kb2 genId
    (some fname :: post) otherToks rest _ PyErr.attrError rfl

/-- C9 witness: a used record with no matched pointer under a KB2-field
template is logged and the loop aborts without producing any line. -/
theorem output_missing_matched_aborts_witness :
    makeOutput "k1" [] [("k2.F", 0, false)] [] [{ data := [["v"]] }]
        (fun _ => "") [some "k2.F"] []
        [{ data := [["x"]], used := true, matched := none }] =
      { lines := []
        printed := [{ data := [["x"]], used := true, matched := none }]
        counter := 0
        err := some PyErr.attrError } :=
  (output_missing_matched_aborts "k1" [] [("k2.F", 0, false)] []
    [{ data := [["v"]] }] (fun _ => "") "k2.F" (0, false) [] []
    { data := [["x"]], used := true, matched := none } []
    rfl rfl (by decide) (by decide) (by decide) (by decide)).2

/-- C9 counterexample: with two used records, the first lacking its matched
pointer, the output loop stops at the first record: no line is produced at
all, although rendering the loop on the second record alone yields its
line.  This refutes the claim that the renderer logs and continues
producing output for the remaining records. -/
theorem output_missing_matched_counterexample :
    (makeOutput "k1" [] [("k2.F", 0, false)] [] [{ data := [["v"]] }]
        (fun _ => "") [some "k2.F"] []
        [{ data := [["x"]], used := true, matched := none },
         { data := [["y"]], used := true, matched := some 0 }]).lines = [] ∧
    (makeOutput "k1" [] [("k2.F", 0, false)] [] [{ data := [["v"]] }]
        (fun _ => "") [some "k2.F"] []
        [{ data := [["x"]], used := true, matched := none },
         { data := [["y"]], used := true, matched := some 0 }]).err =
      some PyErr.attrError ∧
    (makeOutput "k1" [] [("k2.F", 0, false)] [] [{ data := [["v"]] }]
        (fun _ => "") [some "k2.F"] []
        [{ data := [["y"]], used := true, matched := some 0 }]).lines =
      [[["v"]]] := by
  refine ⟨by decide, by decide, by decide⟩

theorem matchByUnique_some (st : MState) (e : MEnt) (rels : List Rel)
    (m : Nat) (h : matchByUnique st e rels = some m) :
    m < st.kb2.length ∧ (st.kb2.getD m mdefault).used = false := by
  unfold matchByUnique at h
  rcases List.exists_of_findSome?_eq_some h with ⟨r, hr, hr2⟩
  rcases List.exists_of_findSome?_eq_some hr2 with ⟨v, hv, hv2⟩
  by_cases hve : v ≠ ""
  · rw [if_pos hve] at hv2
    refine ⟨mem_mkIndex_lt st.kb2 rels _ _ _ m
      (List.mem_of_find?_eq_some hv2), ?_⟩
    have := List.find?_some hv2
    simpa using this
  · rw [if_neg hve] at hv2
    cases hv2

theorem resetWeights_length (kb2 : List MEnt) (cands : List Nat) :
    (resetWeights kb2 cands).length = kb2.length := by
  unfold resetWeights
  refine foldl_invariant (fun (l : List MEnt) => l.length = kb2.length)
    _ _ _ rfl ?_
  intro l j _ hl
  rw [List.length_set, hl]

theorem resetWeights_entry (kb2 : List MEnt) (cands : List Nat) (j : Nat) :
    ((resetWeights kb2 cands).getD j mdefault).data =
      (kb2.getD j mdefault).data ∧
    ((resetWeights kb2 cands).getD j mdefault).used =
      (kb2.getD j mdefault).used ∧
    ((resetWeights kb2 cands).getD j mdefault).matched =
      (kb2.getD j mdefault).matched := by
  unfold resetWeights
  refine foldl_invariant (fun (l : List MEnt) =>
    ((l.getD j mdefault).data = (kb2.getD j mdefault).data ∧
     (l.getD j mdefault).used = (kb2.getD j mdefault).used ∧
     (l.getD j mdefault).matched = (kb2.getD j mdefault).matched))
    _ _ _ ⟨rfl, rfl, rfl⟩ ?_
  intro l k _ hl
  by_cases hkj : k = j
  · subst hkj
    by_cases hk : k < l.length
    · rw [getD_set_self _ _ _ _ hk]
      exact hl
    · rw [List.set_eq_of_length_le (by omega)]
      exact hl
  · rw [getD_set_ne _ _ _ _ _ hkj]
    exact hl

theorem phaseB_empty_char (cmp : String → String → Bool) (rels : List Rel)
    (t : Int) (st : MState) (i : Nat) (he : phaseBCands st rels i = []) :
    (phaseB cmp rels t st i).kb1 = st.kb1 ∧
    (phaseB cmp rels t st i).kb2 =
      (matchByName st (st.kb1.getD i mdefault) rels).1 := by
  have he2 : (matchByName st (st.kb1.getD i mdefault) rels).2 = [] := he
  unfold phaseB
  dsimp only
  rw [if_pos he2]
  exact ⟨rfl, rfl⟩

theorem phaseB_kb2_char (cmp : String → String → Bool) (rels : List Rel)
    (t : Int) (st : MState) (i : Nat)
    (hne : phaseBCands st rels i ≠ []) :
    (phaseB cmp rels t st i).kb2 =
      (if t ≤ ((phaseBScored cmp st rels t i).getD
          (pickBest (phaseBScored cmp st rels t i) (phaseBCands st rels i))
          mdefault).weight then
        resetWeights ((phaseBScored cmp st rels t i).set
          (pickBest (phaseBScored cmp st rels t i) (phaseBCands st rels i))
          { (phaseBScored cmp st rels t i).getD
              (pickBest (phaseBScored cmp st rels t i)
                (phaseBCands st rels i)) mdefault with used := true })
          (phaseBCands st rels i)
      else resetWeights (phaseBScored cmp st rels t i)
        (phaseBCands st rels i)) := by
  have hne2 : (matchByName st (st.kb1.getD i mdefault) rels).2 ≠ [] := hne
  unfold phaseB
  dsimp only
  rw [if_neg hne2]
  rw [(updateUnique_parts _ rels i).2.1]
  dsimp only
  rw [apply_ite (fun (s : MState) => s.kb2)]
  rw [apply_ite (fun (l : List MEnt) =>
    resetWeights l (matchByName st (st.kb1.getD i mdefault) rels).2)]
  rfl

theorem phaseB_kb2_used (cmp : String → String → Bool) (rels : List Rel)
    (t : Int) (st : MState) (i j : Nat)
    (hne : phaseBCands st rels i ≠ []) :
    ((phaseB cmp rels t st i).kb2.getD j mdefault).used =
      (if (t ≤ ((phaseBScored cmp st rels t i).getD
            (pickBest (phaseBScored cmp st rels t i)
              (phaseBCands st rels i)) mdefault).weight) ∧
          j = pickBest (phaseBScored cmp st rels t i)
            (phaseBCands st rels i) then
        true
      else (st.kb2.getD j mdefault).used) := by
  have facts := matchByName_facts st (st.kb1.getD i mdefault) rels
  have hbmem := pickBest_mem (phaseBScored cmp st rels t i)
    (phaseBCands st rels i) hne
  have hblt : pickBest (phaseBScored cmp st rels t i)
      (phaseBCands st rels i) < (phaseBScored cmp st rels t i).length := by
    unfold phaseBScored
    rw [scoreAll_length, facts.1]
    exact (facts.2.2.2 _ hbmem).1
  have hused : ∀ k, ((phaseBScored cmp st rels t i).getD k mdefault).used =
      (st.kb2.getD k mdefault).used := by
    intro k
    unfold phaseBScored
    exact (scoreAll_entry cmp st rels t i _ _ k).2.1.trans
      ((facts.2.1 k).2.1)
  rw [phaseB_kb2_char cmp rels t st i hne]
  by_cases hlink : t ≤ ((phaseBScored cmp st rels t i).getD
      (pickBest (phaseBScored cmp st rels t i) (phaseBCands st rels i))
      mdefault).weight
  · rw [if_pos hlink]
    rw [(resetWeights_entry _ _ j).2.1]
    by_cases hjb : j = pickBest (phaseBScored cmp st rels t i)
        (phaseBCands st rels i)
    · subst hjb
      rw [getD_set_self _ _ _ _ hblt]
      rw [if_pos ⟨hlink, rfl⟩]
    · rw [getD_set_ne _ _ _ _ _ (fun h => hjb h.symm)]
      rw [if_neg (fun h => hjb h.2)]
      exact hused j
  · rw [if_neg hlink]
    rw [(resetWeights_entry _ _ j).2.1]
    rw [if_neg (fun h => hlink h.1)]
    exact hused j

theorem phaseB_kb2_length (cmp : String → String → Bool) (rels : List Rel)
    (t : Int) (st : MState) (i : Nat) :
    (phaseB cmp rels t st i).kb2.length = st.kb2.length := by
  have facts := matchByName_facts st (st.kb1.getD i mdefault) rels
  by_cases he : phaseBCands st rels i = []
  · rw [(phaseB_empty_char cmp rels t st i he).2]
    exact facts.1
  · rw [phaseB_kb2_char cmp rels t st i he]
    by_cases hlink : t ≤ ((phaseBScored cmp st rels t i).getD
        (pickBest (phaseBScored cmp st rels t i) (phaseBCands st rels i))
        mdefault).weight
    · rw [if_pos hlink, resetWeights_length, List.length_set]
      unfold phaseBScored
      rw [scoreAll_length]
      exact facts.1
    · rw [if_neg hlink, resetWeights_length]
      unfold phaseBScored
      rw [scoreAll_length]
      exact facts.1

theorem getD_eq_default_of_le {α : Type _} (l : List α) (d : α) (k : Nat)
    (h : l.length ≤ k) : l.getD k d = d := by
  rw [List.getD_eq_getElem?_getD, List.getElem?_eq_none h]
  rfl

theorem getD_mem_of_lt {α : Type _} (l : List α) (d : α) (k : Nat)
    (h : k < l.length) : l.getD k d ∈ l := by
  rw [List.getD_eq_getElem?_getD, List.getElem?_eq_getElem h]
  exact List.getElem_mem h

theorem matchInv_link (n1 n2 dn : Nat) (st st2 : MState)
    (hinv : matchInv n1 n2 dn st) (hdone : dn < n1)
    (m : Nat) (hmlt : m < n2) (hmu : (st.kb2.getD m mdefault).used = false)
    (hk1 : st2.kb1 = st.kb1.set dn { st.kb1.getD dn mdefault with
      matched := some m, used := true })
    (hlen2 : st2.kb2.length = n2)
    (husedc : ∀ j, (st2.kb2.getD j mdefault).used =
      (if j = m then true else (st.kb2.getD j mdefault).used)) :
    matchInv n1 n2 (dn + 1) st2 := by
  obtain ⟨hL1, hL2, hW2, hW3, hW4, hW5, hW6⟩ := hinv
  have hdlt : dn < st.kb1.length := by rw [hL1]; exact hdone
  refine ⟨by rw [hk1, List.length_set]; exact hL1, hlen2, ?_, ?_, ?_, ?_, ?_⟩
  · intro k hk
    rw [hk1, getD_set_ne _ _ _ _ _ (by omega)]
    exact hW2 k (by omega)
  · intro i
    by_cases hid : i = dn
    · subst hid
      rw [hk1, getD_set_self _ _ _ _ hdlt]
      simp
    · rw [hk1, getD_set_ne _ _ _ _ _ (fun h => hid h.symm)]
      exact hW3 i
  · intro j
    rw [husedc j]
    by_cases hjm : j = m
    · subst hjm
      rw [if_pos rfl]
      constructor
      · intro _
        refine ⟨dn, by omega, ?_⟩
        rw [hk1, getD_set_self _ _ _ _ hdlt]
      · intro _
        rfl
    · rw [if_neg hjm]
      rw [hW4 j]
      constructor
      · rintro ⟨i, hi, hmi⟩
        refine ⟨i, by omega, ?_⟩
        rw [hk1, getD_set_ne _ _ _ _ _ (by omega)]
        exact hmi
      · rintro ⟨i, hi, hmi⟩
        by_cases hid : i = dn
        · subst hid
          rw [hk1, getD_set_self _ _ _ _ hdlt] at hmi
          exact absurd (Option.some.inj hmi) (fun h => hjm h.symm)
        · rw [hk1, getD_set_ne _ _ _ _ _ (fun h => hid h.symm)] at hmi
          exact ⟨i, by omega, hmi⟩
  · intro i1 i2 j h1 h2
    by_cases h1d : i1 = dn <;> by_cases h2d : i2 = dn
    · rw [h1d, h2d]
    · exfalso
      rw [h1d] at h1
      rw [hk1, getD_set_self _ _ _ _ hdlt] at h1
      rw [hk1, getD_set_ne _ _ _ _ _ (fun h => h2d h.symm)] at h2
      have hjm : j = m := (Option.some.inj h1).symm
      subst hjm
      by_cases hi2 : i2 < dn
      · have := (hW4 j).2 ⟨i2, hi2, h2⟩
        rw [hmu] at this
        cases this
      · have := (hW2 i2 (by omega)).2
        rw [this] at h2
        cases h2
    · exfalso
      rw [h2d] at h2
      rw [hk1, getD_set_self _ _ _ _ hdlt] at h2
      rw [hk1, getD_set_ne _ _ _ _ _ (fun h => h1d h.symm)] at h1
      have hjm : j = m := (Option.some.inj h2).symm
      subst hjm
      by_cases hi1 : i1 < dn
      · have := (hW4 j).2 ⟨i1, hi1, h1⟩
        rw [hmu] at this
        cases this
      · have := (hW2 i1 (by omega)).2
        rw [this] at h1
        cases h1
    · rw [hk1, getD_set_ne _ _ _ _ _ (fun h => h1d h.symm)] at h1
      rw [hk1, getD_set_ne _ _ _ _ _ (fun h => h2d h.symm)] at h2
      exact hW5 i1 i2 j h1 h2
  · intro i j hij
    by_cases hid : i = dn
    · subst hid
      rw [hk1, getD_set_self _ _ _ _ hdlt] at hij
      rw [← Option.some.inj hij]
      exact hmlt
    · rw [hk1, getD_set_ne _ _ _ _ _ (fun h => hid h.symm)] at hij
      exact hW6 i j hij

theorem matchInv_skip (n1 n2 dn : Nat) (st st2 : MState)
    (hinv : matchInv n1 n2 dn st)
    (hk1 : st2.kb1 = st.kb1)
    (hlen2 : st2.kb2.length = n2)
    (hused : ∀ j, (st2.kb2.getD j mdefault).used =
      (st.kb2.getD j mdefault).used) :
    matchInv n1 n2 (dn + 1) st2 := by
  obtain ⟨hL1, hL2, hW2, hW3, hW4, hW5, hW6⟩ := hinv
  refine ⟨by rw [hk1]; exact hL1, hlen2, ?_, ?_, ?_, ?_, ?_⟩
  · intro k hk
    rw [hk1]
    exact hW2 k (by omega)
  · intro i
    rw [hk1]
    exact hW3 i
  · intro j
    rw [hused j, hk1, hW4 j]
    constructor
    · rintro ⟨i, hi, hmi⟩
      exact ⟨i, by omega, hmi⟩
    · rintro ⟨i, hi, hmi⟩
      by_cases hid : i = dn
      · rw [hid] at hmi
        rw [(hW2 dn (by omega)).2] at hmi
        cases hmi
      · exact ⟨i, by omega, hmi⟩
  · intro i1 i2 j h1 h2
    rw [hk1] at h1 h2
    exact hW5 i1 i2 j h1 h2
  · intro i j hij
    rw [hk1] at hij
    exact hW6 i j hij

theorem matchStep_inv (cmp : String → String → Bool) (rels : List Rel)
    (treshold : Int) (n1 n2 dn : Nat) (st : MState)
    (hinv : matchInv n1 n2 dn st) (hdone : dn < n1) :
    matchInv n1 n2 (dn + 1) (matchStep cmp rels treshold st dn) := by
  have hL1 := hinv.1
  have hL2 := hinv.2.1
  cases hmbu : matchByUnique st (st.kb1.getD dn mdefault) rels with
  | some m =>
    obtain ⟨hmlt0, hmu⟩ := matchByUnique_some st _ rels m hmbu
    by_cases hcu : checkUnique st rels dn (st.kb2.getD m mdefault) = true
    · have hk1 : (matchStep cmp rels treshold st dn).kb1 =
          st.kb1.set dn { st.kb1.getD dn mdefault with
            matched := some m, used := true } := by
        simp only [matchStep, hmbu, if_pos hcu]
        rw [(updateUnique_parts _ rels dn).1]
      have hk2 : (matchStep cmp rels treshold st dn).kb2 =
          st.kb2.set m { st.kb2.getD m mdefault with used := true } := by
        simp only [matchStep, hmbu, if_pos hcu]
        rw [(updateUnique_parts _ rels dn).2.1]
      refine matchInv_link n1 n2 dn st _ hinv hdone m
        (by rw [← hL2]; exact hmlt0) hmu hk1 ?_ ?_
      · rw [hk2, List.length_set]
        exact hL2
      · intro j
        rw [hk2]
        by_cases hjm : j = m
        · subst hjm
          rw [getD_set_self _ _ _ _ hmlt0, if_pos rfl]
        · rw [getD_set_ne _ _ _ _ _ (fun h => hjm h.symm), if_neg hjm]
    · have hch : matchStep cmp rels treshold st dn =
          { st with diags := st.diags ++
            [getErrUris st rels dn (st.kb2.getD m mdefault)] } := by
        simp only [matchStep, hmbu, hcu, Bool.false_eq_true, if_false]
      refine matchInv_skip n1 n2 dn st _ hinv ?_ ?_ ?_
      · rw [hch]
      · rw [hch]
        exact hL2
      · intro j
        rw [hch]
  | none =>
    have hstep : matchStep cmp rels treshold st dn =
        phaseB cmp rels treshold st dn := by
      simp only [matchStep, hmbu]
    rw [hstep]
    have facts := matchByName_facts st (st.kb1.getD dn mdefault) rels
    by_cases hce : phaseBCands st rels dn = []
    · obtain ⟨he1, he2⟩ := phaseB_empty_char cmp rels treshold st dn hce
      refine matchInv_skip n1 n2 dn st _ hinv he1 ?_ ?_
      · rw [he2, facts.1]
        exact hL2
      · intro j
        rw [he2]
        exact (facts.2.1 j).2.1
    · have hbmem := pickBest_mem (phaseBScored cmp st rels treshold dn)
        (phaseBCands st rels dn) hce
      have hblt : pickBest (phaseBScored cmp st rels treshold dn)
          (phaseBCands st rels dn) < n2 := by
        rw [← hL2]
        exact (facts.2.2.2 _ hbmem).1
      have hbu : (st.kb2.getD (pickBest (phaseBScored cmp st rels treshold
          dn) (phaseBCands st rels dn)) mdefault).used = false :=
        (facts.2.2.2 _ hbmem).2
      by_cases hlink : treshold ≤ ((phaseBScored cmp st rels treshold
          dn).getD (pickBest (phaseBScored cmp st rels treshold dn)
          (phaseBCands st rels dn)) mdefault).weight
      · refine matchInv_link n1 n2 dn st _ hinv hdone
          (pickBest (phaseBScored cmp st rels treshold dn)
            (phaseBCands st rels dn)) hblt hbu ?_ ?_ ?_
        · rw [phaseB_kb1_char cmp rels treshold st dn hce, if_pos hlink]
        · rw [phaseB_kb2_length cmp rels treshold st dn]
          exact hL2
        · intro j
          rw [phaseB_kb2_used cmp rels treshold st dn j hce]
          by_cases hjb : j = pickBest (phaseBScored cmp st rels treshold
              dn) (phaseBCands st rels dn)
          · rw [if_pos ⟨hlink, hjb⟩, if_pos hjb]
          · rw [if_neg (fun h => hjb h.2), if_neg hjb]
      · refine matchInv_skip n1 n2 dn st _ hinv ?_ ?_ ?_
        · rw [phaseB_kb1_char cmp rels treshold st dn hce, if_neg hlink]
        · rw [phaseB_kb2_length cmp rels treshold st dn]
          exact hL2
        · intro j
          rw [phaseB_kb2_used cmp rels treshold st dn j hce]
          rw [if_neg (fun h => hlink h.1)]

theorem runMatchFrom_inv (cmp : String → String → Bool) (rels : List Rel)
    (treshold : Int) (n1 n2 : Nat) :
    ∀ (k dn : Nat) (st : MState), dn + k = n1 → matchInv n1 n2 dn st →
      matchInv n1 n2 n1
        (runMatchFrom cmp rels treshold st (List.range' dn k)) := by
  intro k
  induction k with
  | zero =>
    intro dn st h hinv
    have hdn : dn = n1 := by omega
    subst hdn
    simpa [runMatchFrom] using hinv
  | succ k ih =>
    intro dn st h hinv
    have hr : List.range' dn (k + 1) = dn :: List.range' (dn + 1) k := rfl
    rw [hr]
    unfold runMatchFrom
    rw [List.foldl_cons]
    exact ih (dn + 1) _ (by omega)
      (matchStep_inv cmp rels treshold n1 n2 dn st hinv (by omega))

/-- C4, corrected form.  After a match run from a clean state (as produced
by loading, and by dedup for the replacement records): matched pointers are
injective, so every KB2 record is pointed at by the matched field of at
most one KB1 record; a KB1 record is used iff it holds a matched pointer;
and a KB2 record is used iff some KB1 record points at it.  Records
produced by fusing a dedup cluster do NOT retain used = true (the copy is
taken before the members are marked), so used is not "matched or fused". -/
theorem match_used_iff_matched (cmp : String → String → Bool)
    (rels : List Rel) (treshold : Int) (kb1 kb2 : List MEnt)
    (h1 : ∀ e ∈ kb1, e.used = false ∧ e.matched = none)
    (h2 : ∀ e ∈ kb2, e.used = false) :
    (∀ i1 i2 j,
      ((runMatch cmp rels treshold { kb1 := kb1, kb2 := kb2 }).kb1.getD i1
        mdefault).matched = some j →
      ((runMatch cmp rels treshold { kb1 := kb1, kb2 := kb2 }).kb1.getD i2
        mdefault).matched = some j → i1 = i2) ∧
    (∀ i, ((runMatch cmp rels treshold { kb1 := kb1, kb2 := kb2 }).kb1.getD
        i mdefault).used = true ↔
      (((runMatch cmp rels treshold { kb1 := kb1, kb2 := kb2 }).kb1.getD i
        mdefault).matched).isSome = true) ∧
    (∀ j, ((runMatch cmp rels treshold { kb1 := kb1, kb2 := kb2 }).kb2.getD
        j mdefault).used = true ↔
      ∃ i, i < kb1.length ∧
        ((runMatch cmp rels treshold { kb1 := kb1, kb2 := kb2 }).kb1.getD i
          mdefault).matched = some j) := by
  have hinit : matchInv kb1.length kb2.length 0
      { kb1 := kb1, kb2 := kb2 } := by
    refine ⟨rfl, rfl, ?_, ?_, ?_, ?_, ?_⟩
    · intro k _
      by_cases hk : k < kb1.length
      · exact h1 _ (getD_mem_of_lt kb1 mdefault k hk)
      · rw [getD_eq_default_of_le kb1 mdefault k (by omega)]
        exact ⟨rfl, rfl⟩
    · intro i
      by_cases hk : i < kb1.length
      · obtain ⟨hu, hm⟩ := h1 _ (getD_mem_of_lt kb1 mdefault i hk)
        rw [hu, hm]
        simp
      · rw [getD_eq_default_of_le kb1 mdefault i (by omega)]
        simp [mdefault]
    · intro j
      constructor
      · intro hu
        exfalso
        by_cases hk : j < kb2.length
        · rw [h2 _ (getD_mem_of_lt kb2 mdefault j hk)] at hu
          cases hu
        · rw [getD_eq_default_of_le kb2 mdefault j (by omega)] at hu
          cases hu
      · rintro ⟨i, hi, -⟩
        omega
    · intro i1 i2 j hm1 hm2
      exfalso
      by_cases hk : i1 < kb1.length
      · rw [(h1 _ (getD_mem_of_lt kb1 mdefault i1 hk)).2] at hm1
        cases hm1
      · rw [getD_eq_default_of_le kb1 mdefault i1 (by omega)] at hm1
        cases hm1
    · intro i j hm
      exfalso
      by_cases hk : i < kb1.length
      · rw [(h1 _ (getD_mem_of_lt kb1 mdefault i hk)).2] at hm
        cases hm
      · rw [getD_eq_default_of_le kb1 mdefault i (by omega)] at hm
        cases hm
  have hfin := runMatchFrom_inv cmp rels treshold kb1.length kb2.length
    kb1.length 0 { kb1 := kb1, kb2 := kb2 } (by omega) hinit
  have hrm : runMatch cmp rels treshold { kb1 := kb1, kb2 := kb2 } =
      runMatchFrom cmp rels treshold { kb1 := kb1, kb2 := kb2 }
        (List.range' 0 kb1.length) := by
    unfold runMatch
    dsimp only
    rw [List.range_eq_range']
  rw [hrm]
  obtain ⟨-, -, -, hW3, hW4, hW5, -⟩ := hfin
  exact ⟨fun i1 i2 j ha hb => hW5 i1 i2 j ha hb, hW3, hW4⟩

/-- C4 witness: concrete clean-state run of the amended characterisation. -/
theorem match_used_iff_matched_witness :
    (∀ i1 i2 j,
      ((runMatch eqCmp exThreshRels 2
        { kb1 := exThreshSt.kb1, kb2 := exThreshSt.kb2 }).kb1.getD i1
        mdefault).matched = some j →
      ((runMatch eqCmp exThreshRels 2
        { kb1 := exThreshSt.kb1, kb2 := exThreshSt.kb2 }).kb1.getD i2
        mdefault).matched = some j → i1 = i2) ∧
    (∀ i, ((runMatch eqCmp exThreshRels 2
        { kb1 := exThreshSt.kb1, kb2 := exThreshSt.kb2 }).kb1.getD i
        mdefault).used = true ↔
      (((runMatch eqCmp exThreshRels 2
        { kb1 := exThreshSt.kb1, kb2 := exThreshSt.kb2 }).kb1.getD i
        mdefault).matched).isSome = true) ∧
    (∀ j, ((runMatch eqCmp exThreshRels 2
        { kb1 := exThreshSt.kb1, kb2 := exThreshSt.kb2 }).kb2.getD j
        mdefault).used = true ↔
      ∃ i, i < exThreshSt.kb1.length ∧
        ((runMatch eqCmp exThreshRels 2
          { kb1 := exThreshSt.kb1, kb2 := exThreshSt.kb2 }).kb1.getD i
          mdefault).matched = some j) :=
  match_used_iff_matched eqCmp exThreshRels 2 exThreshSt.kb1 exThreshSt.kb2
    (by decide) (by decide)

/-- C4 counterexample: a full pipeline run (dedup of two duplicate records,
then a trivial match phase) ends with its single replacement record being
fusion-produced (Sum.isRight) yet carrying used = false and no matched
pointer, contradicting the claim that used is true iff the record is in a
matched pair or was produced by fusing a dedup cluster. -/
theorem fused_record_not_used_counterexample :
    (deduplicate [0] 1 [true] [[["a"]], [["a"]]] [] 50).map
      (fun dst => (dst.out.map Sum.isRight,
        ((runMatch eqCmp [] 1
          { kb1 := dedupToMEnts dst, kb2 := [] }).kb1.map
          (fun e => (e.used, e.matched))))) =
      some ([true], [(false, none)]) := by
  rfl

/-- C1, corrected form.  When the cluster collection processes a pair
(f, v) that is not blacklisted, whose value is not yet collected for field
f, while collected[f] is non-empty, it removes from collected exactly the
pairs of the current record's cur_ids whose value is currently collected
for their field, inserts exactly those pairs into the blacklist, and
discards every candidate staged during this pop, then continues with the
remaining pairs.  The conflicting new value v itself is neither added to
the cluster nor blacklisted at this step, and collected values not shared
with the current record stay. -/
theorem collect_conflict_step (index : Nat → String → List Nat)
    (curAll rest : List IdPair) (f : Nat) (v : String) (ps : PopState)
    (h1 : (f, v) ∉ ps.black)
    (h2 : v ∉ collectedVals ps.collected f)
    (h3 : collectedVals ps.collected f ≠ []) :
    ∃ ps2, procPairs index curAll ((f, v) :: rest) ps =
        procPairs index curAll rest ps2 ∧
      (∀ q : IdPair, q ∈ ps2.collected ↔ q ∈ ps.collected ∧
        ¬ (q ∈ curAll ∧ q.2 ∈ collectedVals ps.collected q.1)) ∧
      (∀ q : IdPair, q ∈ ps2.black ↔ q ∈ ps.black ∨
        (q ∈ curAll ∧ q.2 ∈ collectedVals ps.collected q.1)) ∧
      ps2.candIds = [] ∧ ps2.candEnts = [] := by
  refine ⟨PopState.mk
    (ps.collected.filter (fun q => decide (q ∉
      curAll.filter (fun q => decide (q.2 ∈ collectedVals ps.collected q.1)))))
    (ps.black ++
      curAll.filter (fun q => decide (q.2 ∈ collectedVals ps.collected q.1)))
    [] [], ?_, ?_, ?_, rfl, rfl⟩
  · conv =>
      lhs
      rw [procPairs]
    rw [if_neg h1, if_neg h2, if_pos h3]
  · intro q
    rw [List.mem_filter, decide_eq_true_eq, List.mem_filter,
      decide_eq_true_eq]
  · intro q
    rw [List.mem_append, List.mem_filter, decide_eq_true_eq]

/-- C1 witness: the conflict step applied at the pop of record 2 of
exDedupEnts (arriving via (1, x), carrying the fresh value b for field 0
while a is already collected there): the shared incumbent (1, x) is removed
and blacklisted, nothing else changes, and (0, b) is neither kept nor
blacklisted. -/
theorem collect_conflict_step_witness :
    ∃ ps2, procPairs (dIndex exDedupEnts) [(0, "b"), (1, "x")]
        [(0, "b"), (1, "x")]
        { collected := [(0, "a"), (1, "x")], black := [], candIds := [],
          candEnts := [] } =
        procPairs (dIndex exDedupEnts) [(0, "b"), (1, "x")] [(1, "x")] ps2 ∧
      (∀ q : IdPair, q ∈ ps2.collected ↔
        q ∈ [((0 : Nat), "a"), (1, "x")] ∧
        ¬ (q ∈ [((0 : Nat), "b"), (1, "x")] ∧
          q.2 ∈ collectedVals [(0, "a"), (1, "x")] q.1)) ∧
      (∀ q : IdPair, q ∈ ps2.black ↔ q ∈ ([] : List IdPair) ∨
        (q ∈ [((0 : Nat), "b"), (1, "x")] ∧
          q.2 ∈ collectedVals [(0, "a"), (1, "x")] q.1)) ∧
      ps2.candIds = [] ∧ ps2.candEnts = [] := by
  have h := collect_conflict_step (dIndex exDedupEnts)
    [(0, "b"), (1, "x")] [(1, "x")] 0 "b"
    { collected := [(0, "a"), (1, "x")], black := [], candIds := [],
      candEnts := [] } (by decide) (by decide) (by decide)
  rcases h with ⟨ps2, ha, hb, hc, hd, he⟩
  exact ⟨ps2, ha, hb, hc, hd, he⟩

/-- C1 counterexample: the cluster collection of exDedupEnts from seed 0
ends with collected = {(0, a)} and blacklist = {(1, x)}.  The value b of
record 2 conflicted with the incumbent a of field 0, yet (0, b) is neither
in the cluster nor quarantined in the blacklist, and the value x - the
first value ever collected for field 1 - did not stay in the cluster: it
was removed and blacklisted.  This refutes the claimed contract that the
first-encountered value of each field stays and that all conflicting
values end up in B. -/
theorem collect_conflict_contract_counterexample :
    collectUniqueIds (dIndex exDedupEnts) [0, 1] exDedupEnts 0 [] 50 =
      some ([(0, "a")], [(1, "x")]) ∧
    ((0, "b") : IdPair) ∉ [((0 : Nat), "a")] ∧
    ((0, "b") : IdPair) ∉ [((1 : Nat), "x")] ∧
    ((1, "x") : IdPair) ∉ [((0 : Nat), "a")] ∧
    "x" ∈ (exDedupEnts.getD 1 []).getD 1 [] := by
  refine ⟨by rfl, by decide, by decide, by decide, by decide⟩

/-! ### Helper lemmas for the deduplication invariant -/

theorem mem_collectedVals (col : List IdPair) (f : Nat) (v : String) :
    v ∈ collectedVals col f ↔ (f, v) ∈ col := by
  unfold collectedVals
  simp only [List.mem_map, List.mem_filter, decide_eq_true_eq]
  constructor
  · rintro ⟨⟨f', v'⟩, ⟨hmem, hf⟩, hv⟩
    dsimp only at hf hv
    rw [← hf, ← hv]
    exact hmem
  · intro h
    exact ⟨(f, v), ⟨h, rfl⟩, rfl⟩

theorem mem_entPairs (idFields : List Nat) (ent : Cells) (p : IdPair) :
    p ∈ entPairs idFields ent ↔ p.1 ∈ idFields ∧ p.2 ∈ ent.getD p.1 [] := by
  obtain ⟨f, v⟩ := p
  unfold entPairs
  simp only [List.mem_flatMap, List.mem_map, Prod.mk.injEq]
  constructor
  · rintro ⟨f', hf', v', hv', rfl, rfl⟩
    exact ⟨hf', hv'⟩
  · rintro ⟨hf, hv⟩
    exact ⟨f, hf, v, hv, rfl, rfl⟩

theorem mem_getIds (idFields : List Nat) (ent : Cells)
    (black : List IdPair) (p : IdPair) :
    p ∈ getIds idFields ent black ↔
      p ∈ entPairs idFields ent ∧ p ∉ black := by
  obtain ⟨f, v⟩ := p
  rw [mem_entPairs]
  unfold getIds
  simp only [List.mem_flatMap, List.mem_map, List.mem_filter,
    decide_eq_true_eq, Prod.mk.injEq]
  constructor
  · rintro ⟨f', hf', v', ⟨hv', hnb⟩, rfl, rfl⟩
    exact ⟨⟨hf', hv'⟩, hnb⟩
  · rintro ⟨⟨hf, hv⟩, hnb⟩
    exact ⟨f, hf, v, ⟨hv, hnb⟩, rfl, rfl⟩

theorem mem_dIndex (ents : List Cells) (f : Nat) (v : String) (e : Nat) :
    e ∈ dIndex ents f v ↔
      e < ents.length ∧ v ∈ (ents.getD e []).getD f [] := by
  unfold dIndex
  simp [List.mem_filter, List.mem_range]

theorem mem_dIndex_lt_of_cell (ents : List Cells) (f : Nat) (v : String)
    (e : Nat) (h : v ∈ (ents.getD e []).getD f []) : e ∈ dIndex ents f v := by
  rw [mem_dIndex]
  refine ⟨?_, h⟩
  by_contra hge
  rw [getD_eq_default_of_le _ _ _ (Nat.le_of_not_lt hge)] at h
  simp at h

theorem mem_dedupMatches (index : Nat → String → List Nat)
    (col : List IdPair) (m : Nat) :
    m ∈ dedupMatches index col ↔ ∃ p ∈ col, m ∈ index p.1 p.2 := by
  unfold dedupMatches
  rw [List.mem_dedup, List.mem_flatMap]

theorem eq_of_length_le_one {α : Type _} (l : List α) (h : l.length ≤ 1)
    (a b : α) (ha : a ∈ l) (hb : b ∈ l) : a = b := by
  cases l with
  | nil => cases ha
  | cons x t =>
    cases t with
    | nil =>
      rw [List.mem_singleton] at ha hb
      rw [ha, hb]
    | cons y u => simp at h

theorem mem_insertByCount (key : Nat → Nat) (y : Nat) (l : List Nat)
    (x : Nat) : x ∈ insertByCount key y l ↔ x = y ∨ x ∈ l := by
  induction l with
  | nil => simp [insertByCount]
  | cons a t ih =>
    rw [insertByCount]
    by_cases h : key a < key y
    · rw [if_pos h]
      simp
    · rw [if_neg h]
      simp only [List.mem_cons, ih]
      tauto

theorem length_insertByCount (key : Nat → Nat) (y : Nat) (l : List Nat) :
    (insertByCount key y l).length = l.length + 1 := by
  induction l with
  | nil => rfl
  | cons a t ih =>
    rw [insertByCount]
    by_cases h : key a < key y
    · rw [if_pos h]
      rfl
    · rw [if_neg h]
      simp [ih]

theorem mem_sortByCount (ents : List Cells) (ms : List Nat) (x : Nat) :
    x ∈ sortByCount ents ms ↔ x ∈ ms := by
  unfold sortByCount
  have main : ∀ (l acc : List Nat),
      ∀ y, y ∈ l.foldl (fun acc m =>
          insertByCount (fun e => countNonEmptyFields (ents.getD e [])) m acc)
        acc ↔ y ∈ acc ∨ y ∈ l := by
    intro l
    induction l with
    | nil => intro acc y; simp
    | cons a t ih =>
      intro acc y
      rw [List.foldl_cons, ih, mem_insertByCount]
      simp only [List.mem_cons]
      tauto
  rw [main]
  simp

theorem length_sortByCount (ents : List Cells) (ms : List Nat) :
    (sortByCount ents ms).length = ms.length := by
  unfold sortByCount
  have main : ∀ (l acc : List Nat),
      (l.foldl (fun acc m =>
          insertByCount (fun e => countNonEmptyFields (ents.getD e [])) m acc)
        acc).length = acc.length + l.length := by
    intro l
    induction l with
    | nil => intro acc; rfl
    | cons a t ih =>
      intro acc
      rw [List.foldl_cons, ih, length_insertByCount]
      simp only [List.length_cons]
      omega
  rw [main]
  simp

theorem headD_mem {α : Type _} (l : List α) (d : α) (h : l ≠ []) :
    l.headD d ∈ l := by
  cases l with
  | nil => exact absurd rfl h
  | cons a t => exact List.mem_cons_self a t

theorem getD_map_range {α : Type _} (g : Nat → α) (n f : Nat) (d : α) :
    ((List.range n).map g).getD f d = if f < n then g f else d := by
  by_cases h : f < n
  · rw [if_pos h, List.getD_eq_getElem?_getD, List.getElem?_map,
      List.getElem?_range h]
    rfl
  · rw [if_neg h]
    apply List.getD_eq_default
    simpa using Nat.le_of_not_lt h

theorem getD_replicate_false (n i : Nat) :
    (List.replicate n false).getD i false = false := by
  induction n generalizing i with
  | zero => rfl
  | succ m ih =>
    cases i with
    | zero => rfl
    | succ k => exact ih k

theorem getD_append_last {α : Type _} (l : List α) (x d : α) :
    (l ++ [x]).getD l.length d = x := by
  rw [List.getD_append_right l [x] d l.length (le_refl _)]
  simp

theorem foldSet_length (ms : List Nat) (used : List Bool) :
    (ms.foldl (fun u m => u.set m true) used).length = used.length := by
  induction ms generalizing used with
  | nil => rfl
  | cons m rest ih =>
    rw [List.foldl_cons, ih, List.length_set]

theorem foldSet_getD_true (ms : List Nat) (used : List Bool) (e : Nat)
    (h : used.getD e false = true) :
    (ms.foldl (fun u m => u.set m true) used).getD e false = true := by
  induction ms generalizing used with
  | nil => exact h
  | cons m rest ih =>
    rw [List.foldl_cons]
    apply ih
    by_cases hme : m = e
    · subst hme
      by_cases hm : m < used.length
      · rw [getD_set_self _ _ _ _ hm]
      · rw [List.set_eq_of_length_le (Nat.le_of_not_lt hm)]
        exact h
    · rw [getD_set_ne _ _ _ _ _ hme]
      exact h

theorem foldSet_getD_mem (ms : List Nat) (used : List Bool) (e : Nat)
    (he : e ∈ ms) (hlt : e < used.length) :
    (ms.foldl (fun u m => u.set m true) used).getD e false = true := by
  induction ms generalizing used with
  | nil => cases he
  | cons m rest ih =>
    rw [List.foldl_cons]
    rcases List.mem_cons.1 he with rfl | he'
    · apply foldSet_getD_true
      rw [getD_set_self _ _ _ _ hlt]
    · exact ih _ he' (by rw [List.length_set]; exact hlt)

theorem foldSet_getD_notmem (ms : List Nat) (used : List Bool) (e : Nat)
    (he : e ∉ ms) :
    (ms.foldl (fun u m => u.set m true) used).getD e false =
      used.getD e false := by
  induction ms generalizing used with
  | nil => rfl
  | cons m rest ih =>
    rw [List.foldl_cons]
    have hne : m ≠ e := fun h => he (h ▸ List.mem_cons_self m rest)
    rw [ih _ (fun h => he (List.mem_cons_of_mem m h)),
      getD_set_ne _ _ _ _ _ hne]

theorem fuseRaw_mem (ents : List Cells) (fieldCount : Nat)
    (sorted : List Nat) (hne : sorted ≠ []) (f : Nat) (v : String)
    (h : v ∈ (fuseRaw ents fieldCount sorted).getD f []) :
    ∃ m ∈ sorted, v ∈ (ents.getD m []).getD f [] := by
  unfold fuseRaw at h
  rw [getD_map_range] at h
  by_cases hf : f < fieldCount
  · rw [if_pos hf] at h
    dsimp only at h
    rcases List.mem_append.1 h with hb | hm
    · exact ⟨sorted.headD 0, headD_mem _ _ hne, hb⟩
    · rcases List.mem_flatMap.1 hm with ⟨m, hmem, hv⟩
      by_cases hmb : m = sorted.headD 0
      · rw [if_pos hmb] at hv
        exact ⟨m, hmem, hmb ▸ hv⟩
      · rw [if_neg hmb] at hv
        exact ⟨m, hmem, hv⟩
  · rw [if_neg hf] at h
    cases h

theorem fuseOut_mem (multiFlags : List Bool) (raw : Cells) (f : Nat)
    (v : String) (h : v ∈ (fuseOut multiFlags raw).getD f []) :
    v ∈ raw.getD f [] := by
  unfold fuseOut at h
  rw [getD_map_range] at h
  by_cases hf : f < raw.length
  · rw [if_pos hf] at h
    dsimp only at h
    have huniq : v ∈ uniqifyList (raw.getD f []) := by
      by_cases hm : multiFlags.getD f true
      · rw [if_pos hm] at h
        exact h
      · rw [if_neg hm] at h
        exact List.take_subset _ _ h
    exact (mem_uniqifyList _ _).1 huniq
  · rw [if_neg hf] at h
    cases h

theorem procPairs_black_mono (index : Nat → String → List Nat)
    (curAll : List IdPair) :
    ∀ (lst : List IdPair) (ps : PopState) (q : IdPair), q ∈ ps.black →
      q ∈ (procPairs index curAll lst ps).black := by
  intro lst
  induction lst with
  | nil => intro ps q h; exact h
  | cons fv rest ih =>
    intro ps q h
    obtain ⟨f, v⟩ := fv
    rw [procPairs]
    split_ifs with h1 h2 h3
    · exact ih ps q h
    · exact ih ps q h
    · apply ih
      dsimp only
      exact List.mem_append_left _ h
    · exact ih _ q h

theorem procPairs_collected_sub (index : Nat → String → List Nat)
    (curAll : List IdPair) :
    ∀ (lst : List IdPair) (ps : PopState) (q : IdPair),
      q ∈ (procPairs index curAll lst ps).collected → q ∈ ps.collected := by
  intro lst
  induction lst with
  | nil => intro ps q h; exact h
  | cons fv rest ih =>
    intro ps q h
    obtain ⟨f, v⟩ := fv
    rw [procPairs] at h
    split_ifs at h with h1 h2 h3
    · exact ih ps q h
    · exact ih ps q h
    · have h' := ih _ q h
      dsimp only at h'
      exact (List.mem_filter.1 h').1
    · have h' := ih _ q h
      exact h'

theorem procPairs_collected_or_black (index : Nat → String → List Nat)
    (curAll : List IdPair) :
    ∀ (lst : List IdPair) (ps : PopState) (q : IdPair), q ∈ ps.collected →
      q ∈ (procPairs index curAll lst ps).collected ∨
      q ∈ (procPairs index curAll lst ps).black := by
  intro lst
  induction lst with
  | nil => intro ps q h; exact Or.inl h
  | cons fv rest ih =>
    intro ps q h
    obtain ⟨f, v⟩ := fv
    rw [procPairs]
    split_ifs with h1 h2 h3
    · exact ih ps q h
    · exact ih ps q h
    · by_cases hq : q ∈ curAll.filter
        (fun r => decide (r.2 ∈ collectedVals ps.collected r.1))
      · right
        apply procPairs_black_mono
        dsimp only
        exact List.mem_append_right _ hq
      · apply ih
        dsimp only
        refine List.mem_filter.2 ⟨h, ?_⟩
        simp only [decide_eq_true_eq]
        exact hq
    · have h' := ih { ps with
          candIds := ps.candIds ++ [(f, v)]
          candEnts := ps.candEnts ++
            (index f v).map (fun e => (e, some (f, v))) } q h
      exact h'

theorem procPairs_popInv (index : Nat → String → List Nat)
    (curAll : List IdPair) :
    ∀ (lst : List IdPair) (ps : PopState), (∀ q ∈ lst, q ∈ curAll) →
      popInv index curAll ps →
      popInv index curAll (procPairs index curAll lst ps) := by
  intro lst
  induction lst with
  | nil => intro ps _ h; exact h
  | cons fv rest ih =>
    intro ps hsub hinv
    obtain ⟨f, v⟩ := fv
    obtain ⟨W1, W2, W3, W4, W5⟩ := hinv
    have hsub' : ∀ q ∈ rest, q ∈ curAll :=
      fun q hq => hsub q (List.mem_cons_of_mem _ hq)
    have hhead : (f, v) ∈ curAll := hsub _ (List.mem_cons_self _ _)
    rw [procPairs]
    split_ifs with h1 h2 h3
    · exact ih ps hsub' ⟨W1, W2, W3, W4, W5⟩
    · exact ih ps hsub' ⟨W1, W2, W3, W4, W5⟩
    · apply ih _ hsub'
      refine ⟨?_, ?_, ?_, ?_, ?_⟩
      · intro q hq
        dsimp only at hq ⊢
        have hq' := List.mem_filter.1 hq
        have hqc := hq'.1
        have hqnb : q ∉ curAll.filter
            (fun r => decide (r.2 ∈ collectedVals ps.collected r.1)) :=
          of_decide_eq_true hq'.2
        intro hmem
        rcases List.mem_append.1 hmem with hb | hnb
        · exact W1 q hqc hb
        · exact hqnb hnb
      · intro q hq; cases hq
      · intro et het; cases het
      · intro p hp; cases hp
      · intro p hp; cases hp
    · apply ih _ hsub'
      refine ⟨W1, ?_, ?_, ?_, ?_⟩
      · intro q hq
        dsimp only at hq ⊢
        rcases List.mem_append.1 hq with hold | hnew
        · exact W2 q hold
        · rw [List.mem_singleton] at hnew
          subst hnew
          refine ⟨h1, ?_⟩
          intro hc
          exact h2 ((mem_collectedVals _ _ _).2 hc)
      · intro et het
        dsimp only at het ⊢
        rcases List.mem_append.1 het with hold | hnew
        · obtain ⟨p, hp, he2, he1⟩ := W3 et hold
          exact ⟨p, List.mem_append_left _ hp, he2, he1⟩
        · rcases List.mem_map.1 hnew with ⟨e, he, rfl⟩
          exact ⟨(f, v), List.mem_append_right _ (List.mem_singleton.2 rfl),
            rfl, he⟩
      · intro p hp e he
        dsimp only at hp ⊢
        rcases List.mem_append.1 hp with hold | hnew
        · exact List.mem_append_left _ (W4 p hold e he)
        · rw [List.mem_singleton] at hnew
          subst hnew
          apply List.mem_append_right
          exact List.mem_map.2 ⟨e, he, rfl⟩
      · intro p hp
        dsimp only at hp
        rcases List.mem_append.1 hp with hold | hnew
        · exact W5 p hold
        · rw [List.mem_singleton] at hnew
          subst hnew
          exact hhead

theorem procPairs_main (index : Nat → String → List Nat)
    (curAll : List IdPair) :
    ∀ (lst : List IdPair) (ps : PopState), (∀ q ∈ lst, q ∈ curAll) →
    ((procPairs index curAll lst ps).black = ps.black ∧
     (procPairs index curAll lst ps).collected = ps.collected ∧
     (∀ q ∈ ps.candIds, q ∈ (procPairs index curAll lst ps).candIds) ∧
     (∀ q ∈ lst, q ∈ ps.black ∨ q ∈ ps.collected ∨
       q ∈ (procPairs index curAll lst ps).candIds)) ∨
    (∀ q ∈ curAll, q ∈ ps.collected →
      q ∈ (procPairs index curAll lst ps).black) := by
  intro lst
  induction lst with
  | nil =>
    intro ps _
    left
    exact ⟨rfl, rfl, fun q h => h, by simp⟩
  | cons fv rest ih =>
    intro ps hsub
    obtain ⟨f, v⟩ := fv
    have hsub' : ∀ q ∈ rest, q ∈ curAll :=
      fun q hq => hsub q (List.mem_cons_of_mem _ hq)
    rw [procPairs]
    split_ifs with h1 h2 h3
    · rcases ih ps hsub' with ⟨hA1, hA2, hA3, hA4⟩ | hB
      · left
        refine ⟨hA1, hA2, hA3, ?_⟩
        intro q hq
        rcases List.mem_cons.1 hq with rfl | hq'
        · exact Or.inl h1
        · exact hA4 q hq'
      · exact Or.inr hB
    · have hc : (f, v) ∈ ps.collected := (mem_collectedVals _ _ _).1 h2
      rcases ih ps hsub' with ⟨hA1, hA2, hA3, hA4⟩ | hB
      · left
        refine ⟨hA1, hA2, hA3, ?_⟩
        intro q hq
        rcases List.mem_cons.1 hq with rfl | hq'
        · exact Or.inr (Or.inl hc)
        · exact hA4 q hq'
      · exact Or.inr hB
    · right
      intro q hq hqcol
      apply procPairs_black_mono
      dsimp only
      apply List.mem_append_right
      apply List.mem_filter.2
      refine ⟨hq, ?_⟩
      simp only [decide_eq_true_eq]
      exact (mem_collectedVals _ _ _).2 hqcol
    · rcases ih { ps with
          candIds := ps.candIds ++ [(f, v)]
          candEnts := ps.candEnts ++
            (index f v).map (fun e => (e, some (f, v))) } hsub' with
        ⟨hA1, hA2, hA3, hA4⟩ | hB
      · left
        refine ⟨hA1, hA2, ?_, ?_⟩
        · intro q hq
          exact hA3 q (List.mem_append_left _ hq)
        · intro q hq
          rcases List.mem_cons.1 hq with rfl | hq'
          · exact Or.inr (Or.inr (hA3 (f, v)
              (List.mem_append_right _ (List.mem_singleton.2 rfl))))
          · exact hA4 q hq'
      · exact Or.inr hB

theorem procPairs_empty (index : Nat → String → List Nat)
    (curAll : List IdPair) :
    ∀ (lst : List IdPair) (ps : PopState), ps.collected = [] →
    ((procPairs index curAll lst ps).collected = [] ∧
     (procPairs index curAll lst ps).black = ps.black ∧
     (∀ q ∈ ps.candIds, q ∈ (procPairs index curAll lst ps).candIds) ∧
     (∀ q ∈ lst, q ∈ ps.black ∨
       q ∈ (procPairs index curAll lst ps).candIds)) := by
  intro lst
  induction lst with
  | nil =>
    intro ps hcol
    exact ⟨hcol, rfl, fun q h => h, by simp⟩
  | cons fv rest ih =>
    intro ps hcol
    obtain ⟨f, v⟩ := fv
    have hcv : collectedVals ps.collected f = [] := by
      rw [hcol]
      rfl
    rw [procPairs]
    split_ifs with h1 h2 h3
    · obtain ⟨hC1, hC2, hC3, hC4⟩ := ih ps hcol
      refine ⟨hC1, hC2, hC3, ?_⟩
      intro q hq
      rcases List.mem_cons.1 hq with rfl | hq'
      · exact Or.inl h1
      · exact hC4 q hq'
    · rw [hcv] at h2
      cases h2
    · rw [hcv] at h3
      exact absurd rfl h3
    · obtain ⟨hC1, hC2, hC3, hC4⟩ := ih { ps with
          candIds := ps.candIds ++ [(f, v)]
          candEnts := ps.candEnts ++
            (index f v).map (fun e => (e, some (f, v))) } hcol
      refine ⟨hC1, hC2, ?_, ?_⟩
      · intro q hq
        exact hC3 q (List.mem_append_left _ hq)
      · intro q hq
        rcases List.mem_cons.1 hq with rfl | hq'
        · exact Or.inr (hC3 (f, v)
            (List.mem_append_right _ (List.mem_singleton.2 rfl)))
        · exact hC4 q hq'

theorem collectSkip_inv (idFields : List Nat) (ents0 : List Cells)
    (black0 : List IdPair) (good : Nat → Prop) (root : Nat)
    (col black : List IdPair) (e : Nat) (tag : Option IdPair)
    (rest : List (Nat × Option IdPair))
    (hinv : collectInv idFields ents0 black0 good root
      ⟨col, black, (e, tag) :: rest⟩)
    (hb : tagBlack tag black = true) :
    collectInv idFields ents0 black0 good root ⟨col, black, rest⟩ := by
  obtain ⟨J1, J2, J3, J4, J5, J6, J7, Jroot⟩ := hinv
  dsimp only at J1 J2 J3 J4 J5 J6 J7 Jroot ⊢
  obtain ⟨q0, hq0, hq0b⟩ : ∃ q0, tag = some q0 ∧ q0 ∈ black := by
    cases tag with
    | none => simp [tagBlack] at hb
    | some q0 => exact ⟨q0, rfl, by simpa [tagBlack] using hb⟩
  refine ⟨J1, J2, ?_, ?_, J5, ?_, J7, ?_⟩
  · intro et het q hq
    exact J3 et (List.mem_cons_of_mem _ het) q hq
  · intro et het
    exact J4 et (List.mem_cons_of_mem _ het)
  · intro p hp e2 he2
    rcases J6 p hp e2 he2 with hl | hr
    · rcases List.mem_cons.1 hl with heq | hl'
      · exfalso
        have hsnd : some p = tag := by
          injection heq with h1 h2
        have hp_eq : p = q0 := by
          rw [hq0] at hsnd
          exact Option.some.inj hsnd
        exact J1 p hp (hp_eq ▸ hq0b)
      · exact Or.inl hl'
    · exact Or.inr hr
  · rcases Jroot with ⟨hq, _⟩ | hr
    · exfalso
      have ht : tag = none := by
        have := congrArg (fun l => (l.headD (0, none)).2) hq
        simpa using this
      rw [ht] at hq0
      cases hq0
    · exact Or.inr hr

theorem collectStep_inv (idFields : List Nat) (ents0 entsCur : List Cells)
    (black0 : List IdPair) (good : Nat → Prop) (root : Nat)
    (Hclean : ∀ e, good e → entsCur.getD e [] = ents0.getD e [])
    (Hseal : ∀ p : IdPair, p.1 ∈ idFields → p ∉ black0 →
      ∀ e1 ∈ dIndex ents0 p.1 p.2, ¬ good e1 →
      ∀ e2 ∈ dIndex ents0 p.1 p.2, ¬ good e2)
    (col black : List IdPair) (e : Nat) (tag : Option IdPair)
    (rest : List (Nat × Option IdPair)) (cur : List IdPair) (ps : PopState)
    (hcur : cur = getIds idFields (entsCur.getD e []) black)
    (hps : ps = procPairs (dIndex ents0) cur cur ⟨col, black, [], []⟩)
    (hinv : collectInv idFields ents0 black0 good root
      ⟨col, black, (e, tag) :: rest⟩) :
    collectInv idFields ents0 black0 good root
      ⟨ps.collected ++ ps.candIds, ps.black, rest ++ ps.candEnts⟩ := by
  obtain ⟨J1, J2, J3, J4, J5, J6, J7, Jroot⟩ := hinv
  dsimp only at J1 J2 J3 J4 J5 J6 J7 Jroot
  have hgoode : good e := J4 (e, tag) (List.mem_cons_self _ _)
  have hents : entsCur.getD e [] = ents0.getD e [] := Hclean e hgoode
  have hcur0 : cur = getIds idFields (ents0.getD e []) black := by
    rw [hcur, hents]
  have hcurmem : ∀ q : IdPair, q ∈ cur ↔
      q ∈ entPairs idFields (ents0.getD e []) ∧ q ∉ black := by
    intro q
    rw [hcur0, mem_getIds]
  have hwf0 : popInv (dIndex ents0) cur ⟨col, black, [], []⟩ := by
    refine ⟨J1, ?_, ?_, ?_, ?_⟩
    · intro q hq; cases hq
    · intro et het; cases het
    · intro p hp; cases hp
    · intro p hp; cases hp
  have hwf : popInv (dIndex ents0) cur ps := by
    rw [hps]
    exact procPairs_popInv _ _ cur _ (fun q hq => hq) hwf0
  obtain ⟨W1, W2, W3, W4, W5⟩ := hwf
  have hblackmono : ∀ q ∈ black, q ∈ ps.black := by
    intro q hq
    rw [hps]
    exact procPairs_black_mono _ _ cur _ q hq
  have hcolsub : ∀ q ∈ ps.collected, q ∈ col := by
    intro q hq
    rw [hps] at hq
    exact procPairs_collected_sub _ _ cur _ q hq
  have hcolorb : ∀ q ∈ col, q ∈ ps.collected ∨ q ∈ ps.black := by
    intro q hq
    rw [hps]
    exact procPairs_collected_or_black _ _ cur _ q hq
  have hcandpair : ∀ p ∈ ps.candIds,
      p.1 ∈ idFields ∧ p.2 ∈ (ents0.getD e []).getD p.1 [] ∧ p ∉ black := by
    intro p hp
    have h1 := (hcurmem p).1 (W5 p hp)
    have h2 := (mem_entPairs _ _ _).1 h1.1
    exact ⟨h2.1, h2.2, h1.2⟩
  have hcandgood : ∀ p ∈ ps.candIds, ∀ e2 ∈ dIndex ents0 p.1 p.2,
      good e2 := by
    intro p hp e2 he2
    obtain ⟨hf, hv, hnb⟩ := hcandpair p hp
    have hnb0 : p ∉ black0 := fun h => hnb (J2 p h)
    have hein : e ∈ dIndex ents0 p.1 p.2 := mem_dIndex_lt_of_cell _ _ _ _ hv
    by_contra hbad
    exact Hseal p hf hnb0 e2 he2 hbad e hein hgoode
  refine ⟨?_, ?_, ?_, ?_, ?_, ?_, ?_, ?_⟩
  · intro p hp
    dsimp only at hp ⊢
    rcases List.mem_append.1 hp with h | h
    · exact W1 p h
    · exact (W2 p h).1
  · intro p hp
    exact hblackmono _ (J2 p hp)
  · intro et het q hq
    dsimp only at het ⊢
    rcases List.mem_append.1 het with hr | hc
    · rcases J3 et (List.mem_cons_of_mem _ hr) q hq with hcol | hb
      · rcases hcolorb q hcol with h | h
        · exact Or.inl (List.mem_append_left _ h)
        · exact Or.inr h
      · exact Or.inr (hblackmono q hb)
    · obtain ⟨p, hp, he2, _⟩ := W3 et hc
      rw [hq] at he2
      have hqp : q = p := Option.some.inj he2
      exact Or.inl (List.mem_append_right _ (hqp ▸ hp))
  · intro et het
    dsimp only at het
    rcases List.mem_append.1 het with hr | hc
    · exact J4 et (List.mem_cons_of_mem _ hr)
    · obtain ⟨p, hp, _, he1⟩ := W3 et hc
      exact hcandgood p hp et.1 he1
  · intro p hp e2 he2
    dsimp only at hp
    rcases List.mem_append.1 hp with h | h
    · exact J5 p (hcolsub p h) e2 he2
    · exact hcandgood p h e2 he2
  · intro p hp e2 he2
    dsimp only at hp ⊢
    rcases List.mem_append.1 hp with hpc | hpcand
    · have hpcol : p ∈ col := hcolsub p hpc
      rcases J6 p hpcol e2 he2 with hl | hr
      · rcases List.mem_cons.1 hl with heq | hl'
        · have he2e : e2 = e := by
            injection heq with h1 h2
          subst he2e
          rcases procPairs_main (dIndex ents0) cur cur ⟨col, black, [], []⟩
              (fun q hq => hq) with ⟨hA1, hA2, hA3, hA4⟩ | hB
          · right
            intro q hq2
            by_cases hqb : q ∈ black
            · exact Or.inr (hblackmono q hqb)
            · have hqcur : q ∈ cur := (hcurmem q).2 ⟨hq2, hqb⟩
              rcases hA4 q hqcur with h | h | h
              · exact Or.inr (hblackmono q h)
              · left
                apply List.mem_append_left
                rw [hps, hA2]
                exact h
              · left
                apply List.mem_append_right
                rw [hps]
                exact h
          · exfalso
            have hppair : p ∈ entPairs idFields (ents0.getD e2 []) := by
              rw [mem_entPairs]
              exact ⟨J7 p hpcol, ((mem_dIndex _ _ _ _).1 he2).2⟩
            have hpnb : p ∉ black := J1 p hpcol
            have hpcur : p ∈ cur := (hcurmem p).2 ⟨hppair, hpnb⟩
            have hpb : p ∈ ps.black := by
              rw [hps]
              exact hB p hpcur hpcol
            exact W1 p hpc hpb
        · exact Or.inl (List.mem_append_left _ hl')
      · right
        intro q hq2
        rcases hr q hq2 with h | h
        · rcases hcolorb q h with h' | h'
          · exact Or.inl (List.mem_append_left _ h')
          · exact Or.inr h'
        · exact Or.inr (hblackmono q h)
    · exact Or.inl (List.mem_append_right _ (W4 p hpcand e2 he2))
  · intro p hp
    dsimp only at hp
    rcases List.mem_append.1 hp with h | h
    · exact J7 p (hcolsub p h)
    · exact (hcandpair p h).1
  · rcases Jroot with ⟨hq, hcol⟩ | hr
    · obtain ⟨he, ht, hrest⟩ : e = root ∧ tag = none ∧ rest = [] := by
        have h1 := congrArg (fun l => (l.headD (0, none)).1) hq
        have h2 := congrArg (fun l => (l.headD (0, none)).2) hq
        have h3 := congrArg List.tail hq
        simp at h1 h2 h3
        exact ⟨h1, h2, h3⟩
      subst he
      right
      intro q hq2
      dsimp only
      by_cases hqb : q ∈ black
      · exact Or.inr (hblackmono q hqb)
      · have hqcur : q ∈ cur := (hcurmem q).2 ⟨hq2, hqb⟩
        obtain ⟨hE1, hE2, hE3, hE4⟩ :=
          procPairs_empty (dIndex ents0) cur cur ⟨col, black, [], []⟩ hcol
        rcases hE4 q hqcur with h | h
        · exact Or.inr (hblackmono q h)
        · left
          apply List.mem_append_right
          rw [hps]
          exact h
    · right
      intro q hq2
      dsimp only
      rcases hr q hq2 with h | h
      · rcases hcolorb q h with h' | h'
        · exact Or.inl (List.mem_append_left _ h')
        · exact Or.inr h'
      · exact Or.inr (hblackmono q h)

theorem collectLoop_inv (idFields : List Nat) (ents0 entsCur : List Cells)
    (black0 : List IdPair) (good : Nat → Prop) (root : Nat)
    (Hclean : ∀ e, good e → entsCur.getD e [] = ents0.getD e [])
    (Hseal : ∀ p : IdPair, p.1 ∈ idFields → p ∉ black0 →
      ∀ e1 ∈ dIndex ents0 p.1 p.2, ¬ good e1 →
      ∀ e2 ∈ dIndex ents0 p.1 p.2, ¬ good e2) :
    ∀ (fuel : Nat) (st : CState) (c b : List IdPair),
      collectInv idFields ents0 black0 good root st →
      collectLoop (dIndex ents0) idFields entsCur fuel st = some (c, b) →
      collectInv idFields ents0 black0 good root ⟨c, b, []⟩ := by
  intro fuel
  induction fuel with
  | zero =>
    intro st c b hinv h
    obtain ⟨col, black, queue⟩ := st
    rw [collectLoop] at h
    dsimp only at h
    split_ifs at h with hq
    · injection h with h'
      injection h' with h1 h2
      subst h1
      subst h2
      rw [hq] at hinv
      exact hinv
  | succ fuel ih =>
    intro st c b hinv h
    obtain ⟨col, black, queue⟩ := st
    cases hque : queue with
    | nil =>
      subst hque
      rw [collectLoop] at h
      dsimp only at h
      injection h with h'
      injection h' with h1 h2
      subst h1
      subst h2
      exact hinv
    | cons et rest =>
      subst hque
      obtain ⟨e, tag⟩ := et
      rw [collectLoop] at h
      dsimp only at h
      by_cases hb : tagBlack tag black = true
      · rw [if_pos hb] at h
        exact ih _ c b
          (collectSkip_inv idFields ents0 black0 good root col black e tag
            rest hinv hb) h
      · rw [if_neg hb] at h
        exact ih _ c b
          (collectStep_inv idFields ents0 entsCur black0 good root Hclean
            Hseal col black e tag rest _ _ rfl rfl hinv) h

theorem collectUniqueIds_facts (idFields : List Nat)
    (ents0 entsCur : List Cells) (black0 : List IdPair) (good : Nat → Prop)
    (root : Nat) (fuel : Nat) (c b : List IdPair)
    (Hclean : ∀ e, good e → entsCur.getD e [] = ents0.getD e [])
    (Hseal : ∀ p : IdPair, p.1 ∈ idFields → p ∉ black0 →
      ∀ e1 ∈ dIndex ents0 p.1 p.2, ¬ good e1 →
      ∀ e2 ∈ dIndex ents0 p.1 p.2, ¬ good e2)
    (Hroot : good root)
    (h : collectUniqueIds (dIndex ents0) idFields entsCur root black0 fuel =
      some (c, b)) :
    (∀ p ∈ black0, p ∈ b) ∧
    (∀ p ∈ c, p ∉ b) ∧
    (∀ p ∈ c, p.1 ∈ idFields) ∧
    (∀ p ∈ c, ∀ e ∈ dIndex ents0 p.1 p.2, good e) ∧
    (∀ p ∈ c, ∀ e ∈ dIndex ents0 p.1 p.2,
      ∀ q ∈ entPairs idFields (ents0.getD e []), q ∈ c ∨ q ∈ b) ∧
    (∀ q ∈ entPairs idFields (ents0.getD root []), q ∈ c ∨ q ∈ b) := by
  have hinv0 : collectInv idFields ents0 black0 good root
      ⟨[], black0, [(root, none)]⟩ := by
    refine ⟨?_, ?_, ?_, ?_, ?_, ?_, ?_, ?_⟩
    · intro p hp; cases hp
    · intro p hp; exact hp
    · intro et het q hq
      rw [List.mem_singleton] at het
      subst het
      cases hq
    · intro et het
      rw [List.mem_singleton] at het
      subst het
      exact Hroot
    · intro p hp; cases hp
    · intro p hp; cases hp
    · intro p hp; cases hp
    · exact Or.inl ⟨rfl, rfl⟩
  have hfin := collectLoop_inv idFields ents0 entsCur black0 good root
    Hclean Hseal fuel _ c b hinv0 h
  obtain ⟨J1, J2, J3, J4, J5, J6, J7, Jroot⟩ := hfin
  dsimp only at J1 J2 J5 J6 J7 Jroot
  refine ⟨J2, J1, J7, J5, ?_, ?_⟩
  · intro p hp e he q hq
    rcases J6 p hp e he with hl | hr
    · cases hl
    · exact hr q hq
  · rcases Jroot with ⟨hq, _⟩ | hr
    · cases hq
    · exact hr

theorem dedupStep_inv (idFields : List Nat) (fieldCount : Nat)
    (multiFlags : List Bool) (ents0 : List Cells) (fuel : Nat)
    (todo2 : List Nat) (s : Nat) (st st2 : DState)
    (hs : s ∉ todo2)
    (hinv : dedupInv idFields ents0 (s :: todo2) st)
    (h : dedupStep (dIndex ents0) idFields fieldCount multiFlags fuel st s =
      some st2) :
    dedupInv idFields ents0 todo2 st2 := by
  obtain ⟨K0a, K0b, K1, K2, K3, K4, K5⟩ := hinv
  rw [dedupStep] at h
  by_cases hu : st.used.getD s false = true
  · rw [if_pos hu] at h
    injection h with h2
    subst h2
    refine ⟨K0a, K0b, K1, K2, ?_, K4, K5⟩
    intro s2 hs2
    obtain ⟨ht, hrest⟩ := K3 s2 hs2
    exact ⟨fun hmem => ht (List.mem_cons_of_mem _ hmem), hrest⟩
  · have hu2 : st.used.getD s false = false := eq_false_of_ne_true hu
    rw [if_neg hu] at h
    cases hrun : collectUniqueIds (dIndex ents0) idFields st.ents s
        st.black fuel with
    | none =>
      rw [hrun] at h
      cases h
    | some cb =>
      obtain ⟨c, b1⟩ := cb
      rw [hrun] at h
      dsimp only at h
      have Hclean : ∀ e,
          (st.used.getD e false = false ∧ Sum.inl e ∉ st.out) →
          st.ents.getD e [] = ents0.getD e [] :=
        fun e he => K1 e he.1
      have Hseal : ∀ p : IdPair, p.1 ∈ idFields → p ∉ st.black →
          ∀ e1 ∈ dIndex ents0 p.1 p.2,
            ¬(st.used.getD e1 false = false ∧ Sum.inl e1 ∉ st.out) →
          ∀ e2 ∈ dIndex ents0 p.1 p.2,
            ¬(st.used.getD e2 false = false ∧ Sum.inl e2 ∉ st.out) := by
        intro p hf hnb e1 he1 hbad1 e2 he2
        have hp1 : p ∈ entPairs idFields (ents0.getD e1 []) := by
          rw [mem_entPairs]
          exact ⟨hf, ((mem_dIndex _ _ _ _).1 he1).2⟩
        by_cases hu1 : st.used.getD e1 false = true
        · rcases K2 e1 hu1 p hp1 with hb | hall
          · exact absurd hb hnb
          · intro hg2
            have h2 := hall e2 he2
            rw [hg2.1] at h2
            cases h2
        · have hout1 : Sum.inl e1 ∈ st.out := by
            by_contra hno
            exact hbad1 ⟨eq_false_of_ne_true hu1, hno⟩
          obtain ⟨_, _, hiso⟩ := K3 e1 hout1
          rcases hiso p hp1 with hb | hall
          · exact absurd hb hnb
          · have he2e1 : e2 = e1 := hall e2 he2
            rw [he2e1]
            exact hbad1
      have Hroot : st.used.getD s false = false ∧ Sum.inl s ∉ st.out := by
        refine ⟨hu2, ?_⟩
        intro hout
        exact (K3 s hout).1 (List.mem_cons_self _ _)
      obtain ⟨Rblack, Rdisj, Rfields, Rgood, Rclosure, Rroot⟩ :=
        collectUniqueIds_facts idFields ents0 st.ents st.black
          (fun e => st.used.getD e false = false ∧ Sum.inl e ∉ st.out)
          s fuel c b1 Hclean Hseal Hroot hrun
      have hmsgood : ∀ m ∈ dedupMatches (dIndex ents0) c,
          st.used.getD m false = false ∧ Sum.inl m ∉ st.out := by
        intro m hm
        obtain ⟨p, hp, hmi⟩ := (mem_dedupMatches _ _ _).1 hm
        exact Rgood p hp m hmi
      have hmslt : ∀ m ∈ dedupMatches (dIndex ents0) c,
          m < ents0.length := by
        intro m hm
        obtain ⟨p, hp, hmi⟩ := (mem_dedupMatches _ _ _).1 hm
        exact ((mem_dIndex _ _ _ _).1 hmi).1
      by_cases hlen : 1 < (dedupMatches (dIndex ents0) c).length
      · -- fusion branch
        rw [if_pos hlen] at h
        injection h with h2
        subst h2
        have hsne : sortByCount st.ents (dedupMatches (dIndex ents0) c)
            ≠ [] := by
          apply List.ne_nil_of_length_pos
          rw [length_sortByCount]
          omega
        have hbasem : (sortByCount st.ents
            (dedupMatches (dIndex ents0) c)).headD 0 ∈
            dedupMatches (dIndex ents0) c :=
          (mem_sortByCount _ _ _).1 (headD_mem _ _ hsne)
        have hbgood := hmsgood _ hbasem
        have hused_true_of : ∀ e, st.used.getD e false = true →
            ((dedupMatches (dIndex ents0) c).foldl
              (fun u m => u.set m true) st.used).getD e false = true :=
          fun e => foldSet_getD_true _ st.used e
        have hused_mem : ∀ e ∈ dedupMatches (dIndex ents0) c,
            ((dedupMatches (dIndex ents0) c).foldl
              (fun u m => u.set m true) st.used).getD e false = true :=
          fun e he => foldSet_getD_mem _ st.used e he
            (by rw [K0b]; exact hmslt e he)
        have hused_notmem : ∀ e, e ∉ dedupMatches (dIndex ents0) c →
            ((dedupMatches (dIndex ents0) c).foldl
              (fun u m => u.set m true) st.used).getD e false =
              st.used.getD e false :=
          fun e he => foldSet_getD_notmem _ st.used e he
        have hused_rev : ∀ e,
            ((dedupMatches (dIndex ents0) c).foldl
              (fun u m => u.set m true) st.used).getD e false = true →
            e ∈ dedupMatches (dIndex ents0) c ∨
              st.used.getD e false = true := by
          intro e ht
          by_cases hm : e ∈ dedupMatches (dIndex ents0) c
          · exact Or.inl hm
          · right
            rw [← hused_notmem e hm]
            exact ht
        have hused_false : ∀ e,
            ((dedupMatches (dIndex ents0) c).foldl
              (fun u m => u.set m true) st.used).getD e false = false →
            st.used.getD e false = false ∧
              e ∉ dedupMatches (dIndex ents0) c := by
          intro e hf
          have h1 : st.used.getD e false = false := by
            cases hx : st.used.getD e false with
            | false => rfl
            | true =>
              rw [hused_true_of e hx] at hf
              cases hf
          refine ⟨h1, ?_⟩
          intro hm
          rw [hused_mem e hm] at hf
          cases hf
        have hents_ne : ∀ e, e ≠ (sortByCount st.ents
            (dedupMatches (dIndex ents0) c)).headD 0 →
            (st.ents.set ((sortByCount st.ents
                (dedupMatches (dIndex ents0) c)).headD 0)
              (fuseRaw st.ents fieldCount (sortByCount st.ents
                (dedupMatches (dIndex ents0) c)))).getD e [] =
            st.ents.getD e [] := by
          intro e hne
          exact getD_set_ne _ _ _ _ _ (fun h2 => hne h2.symm)
        have houtstab : ∀ o ∈ st.out,
            outCells (DState.mk
              (st.ents.set ((sortByCount st.ents
                  (dedupMatches (dIndex ents0) c)).headD 0)
                (fuseRaw st.ents fieldCount (sortByCount st.ents
                  (dedupMatches (dIndex ents0) c))))
              ((dedupMatches (dIndex ents0) c).foldl
                (fun u m => u.set m true) st.used)
              b1
              (st.out ++ [Sum.inr (fuseOut multiFlags
                (fuseRaw st.ents fieldCount (sortByCount st.ents
                  (dedupMatches (dIndex ents0) c))),
                st.used.getD ((sortByCount st.ents
                  (dedupMatches (dIndex ents0) c)).headD 0) false)])) o =
              outCells st o := by
          intro o ho
          cases o with
          | inr c2 => rfl
          | inl s2 =>
            dsimp only [outCells]
            apply hents_ne
            intro hbs2
            apply hbgood.2
            rw [← hbs2]
            exact ho
        refine ⟨?_, ?_, ?_, ?_, ?_, ?_, ?_⟩
        · dsimp only
          rw [List.length_set]
          exact K0a
        · dsimp only
          rw [foldSet_length]
          exact K0b
        · intro e hf
          dsimp only at hf ⊢
          obtain ⟨hf0, hnm⟩ := hused_false e hf
          have hne : e ≠ (sortByCount st.ents
              (dedupMatches (dIndex ents0) c)).headD 0 := by
            intro h2
            exact hnm (h2 ▸ hbasem)
          rw [hents_ne e hne]
          exact K1 e hf0
        · intro e hue p hp
          dsimp only at hue ⊢
          rcases hused_rev e hue with hm | hold
          · obtain ⟨p2, hp2, hmi⟩ := (mem_dedupMatches _ _ _).1 hm
            rcases Rclosure p2 hp2 e hmi p hp with hc | hb
            · right
              intro e2 he2
              exact hused_mem e2 ((mem_dedupMatches _ _ _).2 ⟨p, hc, he2⟩)
            · exact Or.inl hb
          · rcases K2 e hold p hp with hb | hall
            · exact Or.inl (Rblack _ hb)
            · right
              intro e2 he2
              exact hused_true_of e2 (hall e2 he2)
        · intro s2 hs2
          dsimp only at hs2 ⊢
          rcases List.mem_append.1 hs2 with hold | hnew
          · obtain ⟨ht, hu3, hiso⟩ := K3 s2 hold
            have hs2nm : s2 ∉ dedupMatches (dIndex ents0) c :=
              fun hm => (hmsgood s2 hm).2 hold
            refine ⟨fun hm2 => ht (List.mem_cons_of_mem _ hm2), ?_, ?_⟩
            · rw [hused_notmem s2 hs2nm]
              exact hu3
            · intro p hp
              rcases hiso p hp with hb | hall
              · exact Or.inl (Rblack _ hb)
              · exact Or.inr hall
          · rw [List.mem_singleton] at hnew
            cases hnew
        · intro o ho f hf v hv
          dsimp only at ho ⊢
          rcases List.mem_append.1 ho with hold | hnew
          · rw [houtstab o hold] at hv
            rcases K4 o hold f hf v hv with hb | hused | hiso
            · exact Or.inl (Rblack _ hb)
            · exact Or.inr (Or.inl
                (fun e2 he2 => hused_true_of e2 (hused e2 he2)))
            · exact Or.inr (Or.inr hiso)
          · rw [List.mem_singleton] at hnew
            subst hnew
            dsimp only [outCells] at hv
            have hvraw := fuseOut_mem multiFlags _ f v hv
            obtain ⟨m, hmsort, hvm⟩ :=
              fuseRaw_mem st.ents fieldCount _ hsne f v hvraw
            have hmms : m ∈ dedupMatches (dIndex ents0) c :=
              (mem_sortByCount _ _ _).1 hmsort
            have hmgood := hmsgood m hmms
            have hvm0 : v ∈ (ents0.getD m []).getD f [] := by
              rw [← K1 m hmgood.1]
              exact hvm
            have hpm : (f, v) ∈ entPairs idFields (ents0.getD m []) :=
              (mem_entPairs _ _ _).2 ⟨hf, hvm0⟩
            obtain ⟨p2, hp2, hmi⟩ := (mem_dedupMatches _ _ _).1 hmms
            rcases Rclosure p2 hp2 m hmi (f, v) hpm with hc | hb
            · right
              left
              intro e2 he2
              exact hused_mem e2
                ((mem_dedupMatches _ _ _).2 ⟨(f, v), hc, he2⟩)
            · exact Or.inl hb
        · intro i j hij hj f hf v hnb
          dsimp only at hj hnb ⊢
          have hnb0 : (f, v) ∉ st.black := fun hm => hnb (Rblack _ hm)
          rw [List.length_append, List.length_singleton] at hj
          by_cases hjlt : j < st.out.length
          · have hilt : i < st.out.length := lt_trans hij hjlt
            have hmemi : st.out.getD i (Sum.inl 0) ∈ st.out :=
              getD_mem_of_lt _ _ _ hilt
            have hmemj : st.out.getD j (Sum.inl 0) ∈ st.out :=
              getD_mem_of_lt _ _ _ hjlt
            rw [List.getD_append _ _ _ _ hilt, List.getD_append _ _ _ _ hjlt,
              houtstab _ hmemi, houtstab _ hmemj]
            exact K5 i j hij hjlt f hf v hnb0
          · have hjeq : j = st.out.length := by omega
            subst hjeq
            have hilt : i < st.out.length := hij
            have hmemi : st.out.getD i (Sum.inl 0) ∈ st.out :=
              getD_mem_of_lt _ _ _ hilt
            rw [List.getD_append _ _ _ _ hilt, getD_append_last,
              houtstab _ hmemi]
            rintro ⟨hvi, hvj⟩
            dsimp only [outCells] at hvj
            have hvraw := fuseOut_mem multiFlags _ f v hvj
            obtain ⟨m, hmsort, hvm⟩ :=
              fuseRaw_mem st.ents fieldCount _ hsne f v hvraw
            have hmms : m ∈ dedupMatches (dIndex ents0) c :=
              (mem_sortByCount _ _ _).1 hmsort
            have hmgood := hmsgood m hmms
            have hvm0 : v ∈ (ents0.getD m []).getD f [] := by
              rw [← K1 m hmgood.1]
              exact hvm
            have hpm : (f, v) ∈ entPairs idFields (ents0.getD m []) :=
              (mem_entPairs _ _ _).2 ⟨hf, hvm0⟩
            obtain ⟨p2, hp2, hmi⟩ := (mem_dedupMatches _ _ _).1 hmms
            have hmidx : m ∈ dIndex ents0 f v :=
              (mem_dIndex _ _ _ _).2 ⟨hmslt m hmms, hvm0⟩
            rcases Rclosure p2 hp2 m hmi (f, v) hpm with hc | hb
            · rcases K4 _ hmemi f hf v hvi with hb2 | hused | ⟨s2, hos2, hall⟩
              · exact hnb0 hb2
              · have h3 := hused m hmidx
                rw [hmgood.1] at h3
                cases h3
              · have hms2 : m = s2 := hall m hmidx
                apply hmgood.2
                rw [hms2, ← hos2]
                exact hmemi
            · exact hnb hb
      · -- the seed is emitted unchanged
        rw [if_neg hlen] at h
        injection h with h2
        subst h2
        have hiso_s : ∀ p : IdPair, p ∈ c →
            p ∈ entPairs idFields (ents0.getD s []) →
            ∀ e2 ∈ dIndex ents0 p.1 p.2, e2 = s := by
          intro p hc hp e2 he2
          have he2m : e2 ∈ dedupMatches (dIndex ents0) c :=
            (mem_dedupMatches _ _ _).2 ⟨p, hc, he2⟩
          have hsm : s ∈ dedupMatches (dIndex ents0) c := by
            apply (mem_dedupMatches _ _ _).2
            refine ⟨p, hc, ?_⟩
            apply mem_dIndex_lt_of_cell
            exact ((mem_entPairs _ _ _).1 hp).2
          exact eq_of_length_le_one _ (Nat.le_of_not_lt hlen) e2 s he2m hsm
        have houtstab : ∀ o,
            outCells { st with black := b1, out := st.out ++ [Sum.inl s] } o =
              outCells st o := by
          intro o
          cases o with
          | inr c2 => rfl
          | inl s2 => rfl
        refine ⟨K0a, K0b, K1, ?_, ?_, ?_, ?_⟩
        · intro e hue p hp
          dsimp only at hue ⊢
          rcases K2 e hue p hp with hb | hall
          · exact Or.inl (Rblack _ hb)
          · exact Or.inr hall
        · intro s2 hs2
          dsimp only at hs2 ⊢
          rcases List.mem_append.1 hs2 with hold | hnew
          · obtain ⟨ht, hu3, hiso⟩ := K3 s2 hold
            refine ⟨fun hm2 => ht (List.mem_cons_of_mem _ hm2), hu3, ?_⟩
            intro p hp
            rcases hiso p hp with hb | hall
            · exact Or.inl (Rblack _ hb)
            · exact Or.inr hall
          · rw [List.mem_singleton] at hnew
            have hs2s : s2 = s := Sum.inl.inj hnew
            subst hs2s
            refine ⟨hs, hu2, ?_⟩
            intro p hp
            rcases Rroot p hp with hc | hb
            · exact Or.inr (hiso_s p hc hp)
            · exact Or.inl hb
        · intro o ho f hf v hv
          dsimp only at ho ⊢
          rw [houtstab] at hv
          rcases List.mem_append.1 ho with hold | hnew
          · rcases K4 o hold f hf v hv with hb | hused | hiso
            · exact Or.inl (Rblack _ hb)
            · exact Or.inr (Or.inl hused)
            · exact Or.inr (Or.inr hiso)
          · rw [List.mem_singleton] at hnew
            subst hnew
            dsimp only [outCells] at hv
            have hv0 : v ∈ (ents0.getD s []).getD f [] := by
              rw [← K1 s hu2]
              exact hv
            have hp : (f, v) ∈ entPairs idFields (ents0.getD s []) :=
              (mem_entPairs _ _ _).2 ⟨hf, hv0⟩
            rcases Rroot (f, v) hp with hc | hb
            · exact Or.inr (Or.inr ⟨s, rfl, hiso_s (f, v) hc hp⟩)
            · exact Or.inl hb
        · intro i j hij hj f hf v hnb
          dsimp only at hj hnb ⊢
          have hnb0 : (f, v) ∉ st.black := fun hm => hnb (Rblack _ hm)
          rw [List.length_append, List.length_singleton] at hj
          by_cases hjlt : j < st.out.length
          · have hilt : i < st.out.length := lt_trans hij hjlt
            rw [List.getD_append _ _ _ _ hilt, List.getD_append _ _ _ _ hjlt,
              houtstab, houtstab]
            exact K5 i j hij hjlt f hf v hnb0
          · have hjeq : j = st.out.length := by omega
            subst hjeq
            have hilt : i < st.out.length := hij
            have hmemi : st.out.getD i (Sum.inl 0) ∈ st.out :=
              getD_mem_of_lt _ _ _ hilt
            rw [List.getD_append _ _ _ _ hilt, getD_append_last,
              houtstab, houtstab]
            rintro ⟨hvi, hvs⟩
            dsimp only [outCells] at hvs
            have hv0 : v ∈ (ents0.getD s []).getD f [] := by
              rw [← K1 s hu2]
              exact hvs
            have hp : (f, v) ∈ entPairs idFields (ents0.getD s []) :=
              (mem_entPairs _ _ _).2 ⟨hf, hv0⟩
            have hsidx : s ∈ dIndex ents0 f v :=
              mem_dIndex_lt_of_cell _ _ _ _ hv0
            rcases Rroot (f, v) hp with hc | hb
            · rcases K4 _ hmemi f hf v hvi with hb2 | hused | ⟨s2, hos2, hall⟩
              · exact hnb0 hb2
              · have h3 := hused s hsidx
                rw [hu2] at h3
                cases h3
              · have hss2 : s = s2 := hall s hsidx
                have houts : Sum.inl s ∈ st.out := by
                  rw [hss2, ← hos2]
                  exact hmemi
                exact (K3 s houts).1 (List.mem_cons_self _ _)
            · exact hnb hb

theorem dedupFold_inv (idFields : List Nat) (fieldCount : Nat)
    (multiFlags : List Bool) (ents0 : List Cells) (fuel : Nat) :
    ∀ (todo : List Nat) (st stF : DState), todo.Nodup →
      dedupInv idFields ents0 todo st →
      List.foldlM (dedupStep (dIndex ents0) idFields fieldCount multiFlags
        fuel) st todo = some stF →
      dedupInv idFields ents0 [] stF := by
  intro todo
  induction todo with
  | nil =>
    intro st stF _ hinv h
    have h2 : st = stF := by simpa using h
    subst h2
    exact hinv
  | cons s rest ih =>
    intro st stF hnd hinv h
    rw [List.foldlM_cons] at h
    cases hstep : dedupStep (dIndex ents0) idFields fieldCount multiFlags
        fuel st s with
    | none =>
      rw [hstep] at h
      simp at h
    | some st1 =>
      rw [hstep] at h
      exact ih st1 stF (List.nodup_cons.1 hnd).2
        (dedupStep_inv idFields fieldCount multiFlags ents0 fuel rest s st
          st1 (List.nodup_cons.1 hnd).1 hinv hstep) h

/-- C2: after a deduplication pass over one KB, for every identifier field
f and every value v such that (f, v) is not in the final blacklist, no two
entries of the resulting replacement record list both contain v in field
f. -/
theorem dedup_no_shared_id (idFields : List Nat) (fieldCount : Nat)
    (multiFlags : List Bool) (ents0 : List Cells) (black0 : List IdPair)
    (fuel : Nat) (st : DState)
    (h : deduplicate idFields fieldCount multiFlags ents0 black0 fuel =
      some st)
    (f : Nat) (hf : f ∈ idFields) (v : String) (hb : (f, v) ∉ st.black)
    (i j : Nat) (hij : i ≠ j) (hi : i < st.out.length)
    (hj : j < st.out.length) :
    ¬(v ∈ (outCells st (st.out.getD i (Sum.inl 0))).getD f [] ∧
      v ∈ (outCells st (st.out.getD j (Sum.inl 0))).getD f []) := by
  have hinv0 : dedupInv idFields ents0 (List.range ents0.length)
      ⟨ents0, List.replicate ents0.length false, black0, []⟩ := by
    refine ⟨rfl, List.length_replicate _ _, ?_, ?_, ?_, ?_, ?_⟩
    · intro e _
      rfl
    · intro e hue
      rw [getD_replicate_false] at hue
      cases hue
    · intro s2 hs2
      cases hs2
    · intro o ho
      cases ho
    · intro i2 j2 _ hj2
      exact absurd hj2 (Nat.not_lt_zero j2)
  unfold deduplicate at h
  have hfin := dedupFold_inv idFields fieldCount multiFlags ents0 fuel
    (List.range ents0.length) _ st (List.nodup_range _) hinv0 h
  obtain ⟨_, _, _, _, _, _, K5⟩ := hfin
  rcases Nat.lt_or_ge i j with hlt | hge
  · exact K5 i j hlt hj f hf v hb
  · have hlt : j < i := lt_of_le_of_ne hge (fun h2 => hij h2.symm)
    exact fun hc => K5 j i hlt hi f hf v hb ⟨hc.2, hc.1⟩

theorem dedup_no_shared_id_witness :
    ¬(("a" : String) ∈
        (outCells exDedup2St (exDedup2St.out.getD 0 (Sum.inl 0))).getD 0 [] ∧
      ("a" : String) ∈
        (outCells exDedup2St (exDedup2St.out.getD 1 (Sum.inl 0))).getD 0 []) :=
  dedup_no_shared_id [0] 1 [true] exDedup2Ents [] 10 exDedup2St rfl
    0 (by decide) "a" (by decide) 0 1 (by decide) (by decide) (by decide)

end KbCompare
